import Mathlib

/-!
Verification of the visibility-driven batching pipeline of the web-translator
extension.  The development shallowly embeds the relevant parts of
`src/js/content.js` (session state machine, batch accumulator, placeholder
renderer) and `background.js` (batch handler with rate-limit abort) as
executable Lean functions, and proves the spec's claims about them.

Conventions of the embedding:
* JS `Set` insertion order is modelled by a `List` with `setAdd` (append when
  absent), JS `Map`/object string-keyed stores by association lists with
  `mapSet`/`mapGet` keeping the original position of an existing key, as the
  JS iteration order does.
* DOM elements are opaque records carrying the data the code reads from them
  (`innerText`, resolved computed style); the `dataset.translationRequested` /
  `dataset.translated` marker attributes live in the state as lists of
  element ids.
* `while` loops over a shrinking queue are written with an explicit fuel
  argument equal to the queue length, which suffices because each iteration
  removes at least `batchSize ≥ 1` elements (the code guarantees
  `contentBatchSize > 0` via `loadSettings`).
* JS `String.prototype.startsWith` / `includes` are modelled on the character
  lists of the strings.
-/

namespace WebTranslator

/-- JS `s.startsWith(p)`, modelled on character lists. -/
def strStartsWith (s p : String) : Bool :=
  p.data.isPrefixOf s.data

/-- Contiguous containment of one character list in another. -/
def charsContain (p : List Char) : List Char → Bool
  | [] => p.isEmpty
  | c :: rest => p.isPrefixOf (c :: rest) || charsContain p rest

/-- JS `s.includes(p)`, modelled on character lists. -/
def strIncludes (s p : String) : Bool :=
  charsContain p.data s.data

/-- JS `s.toLowerCase()` restricted to its ASCII action, modelled on the
character list (the messages it is applied to are ASCII error strings). -/
def charToLower (c : Char) : Char :=
  if 'A' ≤ c ∧ c ≤ 'Z' then Char.ofNat (c.toNat + 32) else c

def strToLower (s : String) : String :=
  ⟨s.data.map charToLower⟩

/-- JS whitespace for `s.trim()` (the characters that occur in practice). -/
def charIsSpace (c : Char) : Bool :=
  c = ' ' || c = '\t' || c = '\n' || c = '\r'

/-- JS `s.trim()`, modelled on the character list. -/
def strTrim (s : String) : String :=
  ⟨((s.data.dropWhile charIsSpace).reverse.dropWhile charIsSpace).reverse⟩

/-- Lookup in a JS string-keyed map / plain object (first binding wins;
`mapSet` keeps keys unique). -/
def mapGet {α : Type} (m : List (String × α)) (k : String) : Option α :=
  match m with
  | [] => none
  | (k', v) :: rest => if k' = k then some v else mapGet rest k

/-- `m.set(k, v)` / `m[k] = v` on a JS map or object: an existing key keeps
its original position, a new key is appended. -/
def mapSet {α : Type} (m : List (String × α)) (k : String) (v : α) : List (String × α) :=
  match m with
  | [] => [(k, v)]
  | (k', v') :: rest => if k' = k then (k, v) :: rest else (k', v') :: mapSet rest k v

/-- The resolved (computed) style of a page element, as read by
`window.getComputedStyle` in `updateTranslation` for the "match original
style" policy. -/
structure ComputedStyle where
  fontFamily : String
  fontSize : String
  fontWeight : String
  fontStyle : String
  color : String
  lineHeight : String
  textAlign : String
  textTransform : String
  letterSpacing : String
deriving DecidableEq, Repr

/-- A DOM text-bearing element as the content script sees it. -/
structure Element where
  id : Nat
  innerText : String
  computed : ComputedStyle
deriving DecidableEq, Repr

/-- The inline `style` object of a placeholder node.  `none` means the
property was never assigned (initial value). -/
structure Style where
  fontFamily : Option String := none
  fontSize : Option String := none
  fontWeight : Option String := none
  fontStyle : Option String := none
  color : Option String := none
  lineHeight : Option String := none
  textAlign : Option String := none
  textTransform : Option String := none
  letterSpacing : Option String := none
  borderLeft : Option String := none
  marginTop : Option String := none
  paddingLeft : Option String := none
  backgroundColor : Option String := none
  padding : Option String := none
deriving DecidableEq, Repr

/-- One of the style objects built by `loadSettings` (the three named presets
and the `custom` preset).  `backgroundColor`/`padding` are present only on the
`highlighted` preset; `Object.assign` copies only present keys. -/
structure PresetStyle where
  fontFamily : String
  lineHeight : String
  fontStyle : String
  color : String
  fontSize : String
  borderLeft : String
  backgroundColor : Option String := none
  padding : Option String := none
deriving DecidableEq, Repr

/-- `this.styleSettings` after `loadSettings`: either `{ match: true }` or a
preset-shaped style object. -/
inductive StyleSettings where
  | matchOriginal : StyleSettings
  | preset : PresetStyle → StyleSettings
deriving DecidableEq, Repr

def sysFontStack : String :=
  "-apple-system, BlinkMacSystemFont, \"Segoe UI\", Roboto, \"Helvetica Neue\", Arial, sans-serif"

/-- The `default` preset of `loadSettings`. -/
def defaultPreset : PresetStyle :=
  { fontFamily := sysFontStack, lineHeight := "1.5", fontStyle := "normal"
    color := "#007bff", fontSize := "0.95em", borderLeft := "3px solid #007bff" }

/-- The `subtle` preset of `loadSettings`. -/
def subtlePreset : PresetStyle :=
  { fontFamily := sysFontStack, lineHeight := "1.5", fontStyle := "normal"
    color := "#555", fontSize := "0.9em", borderLeft := "3px solid #ccc" }

/-- The `highlighted` preset of `loadSettings` (the only one with
`backgroundColor` and `padding` keys). -/
def highlightedPreset : PresetStyle :=
  { fontFamily := sysFontStack, lineHeight := "1.5", fontStyle := "normal"
    color := "black", fontSize := "0.95em", borderLeft := "3px solid #ffc107"
    backgroundColor := some "#fffbe6", padding := some "5px 10px" }

/-- The `custom` style object built by `loadSettings` from the stored
`customStyle` (its font size already rendered to an `em` string). -/
def customPreset (fontSizeEm colorStr : String) : PresetStyle :=
  { fontFamily := sysFontStack, lineHeight := "1.5", fontStyle := "normal"
    color := colorStr, fontSize := fontSizeEm
    borderLeft := "3px solid " ++ colorStr }

/-- Style-settings resolution of `loadSettings` (content.js lines 293-321):
`matchOriginalStyle` wins, then `custom`, then the named presets with
`default` as fallback. -/
def loadStyleSettings (matchOriginalStyle : Bool) (stylePreset : String)
    (customFontSizeEm customColor : String) : StyleSettings :=
  if matchOriginalStyle then .matchOriginal
  else if stylePreset = "custom" then .preset (customPreset customFontSizeEm customColor)
  else if stylePreset = "default" then .preset defaultPreset
  else if stylePreset = "subtle" then .preset subtlePreset
  else if stylePreset = "highlighted" then .preset highlightedPreset
  else .preset defaultPreset

/-- `this.contentBatchSize = items.batchSize > 0 ? items.batchSize : 30`. -/
def loadedBatchSize (stored : Nat) : Nat :=
  if 0 < stored then stored else 30

/-- The rendered placeholder node: spinner child, text content, the two
lifecycle classes and the inline style. -/
structure PlaceholderNode where
  hasSpinner : Bool
  content : String
  loadingClass : Bool
  doneClass : Bool
  style : Style
deriving DecidableEq, Repr

/-- A freshly created placeholder (content.js lines 168-181). -/
def newPlaceholderNode : PlaceholderNode :=
  { hasSpinner := true, content := "", loadingClass := true, doneClass := false
    style := { fontSize := some "0.9em", marginTop := some "5px", paddingLeft := some "10px" } }

/-- An entry of `this.translationPlaceholders`: the placeholder node plus the
original element (kept to copy its style later). -/
structure PlacEntry where
  node : PlaceholderNode
  originalElement : Element
deriving DecidableEq, Repr

/-- The page-side state relevant to placeholder creation and rendering. -/
structure Page where
  isTranslationActive : Bool
  styleSettings : StyleSettings
  placeholders : List (String × PlacEntry)
  /-- ids of elements after which a sibling placeholder node was inserted. -/
  insertedAfter : List Nat
  /-- ids of elements carrying `dataset.translated`. -/
  translatedIds : List Nat
deriving DecidableEq, Repr

/-- Body of the `elements.forEach` of `createPlaceholdersFor` (content.js
lines 160-191): skip when inactive or when a placeholder for the same text
already exists, otherwise insert a loading placeholder after the element,
mark it translated and record the entry. -/
def createOnePlaceholder (pg : Page) (p : Element) : Page :=
  if pg.isTranslationActive = false then pg
  else if (mapGet pg.placeholders p.innerText).isSome then pg
  else
    { pg with
      placeholders := pg.placeholders ++ [(p.innerText, ⟨newPlaceholderNode, p⟩)]
      insertedAfter := pg.insertedAfter ++ [p.id]
      translatedIds := pg.translatedIds ++ [p.id] }

/-- `createPlaceholdersFor` (content.js lines 159-192). -/
def createPlaceholdersFor (pg : Page) (elements : List Element) : Page :=
  elements.foldl createOnePlaceholder pg

/-- The error-sentinel checks of `updateTranslation`
(`translatedText.startsWith('[翻译失败') || translatedText.startsWith('[翻译通信错误')`). -/
def isErrorSentinel (translatedText : String) : Bool :=
  strStartsWith translatedText "[翻译失败" || strStartsWith translatedText "[翻译通信错误"

/-- Style mutation performed by `updateTranslation` (content.js lines
206-229): the common structural properties, then either the fixed error
style, the copied original style, or `Object.assign` with the loaded preset. -/
def renderStyle (ss : StyleSettings) (translatedText : String)
    (orig : ComputedStyle) (st : Style) : Style :=
  let st := { st with marginTop := some "5px", paddingLeft := some "10px" }
  if isErrorSentinel translatedText then
    { st with fontFamily := some sysFontStack, lineHeight := some "1.5"
              fontStyle := some "normal", color := some "#d9534f"
              borderLeft := some "3px solid #d9534f", fontSize := some "0.9em" }
  else
    match ss with
    | .matchOriginal =>
        { st with fontFamily := some orig.fontFamily, fontSize := some orig.fontSize
                  fontWeight := some orig.fontWeight, fontStyle := some orig.fontStyle
                  color := some orig.color, lineHeight := some orig.lineHeight
                  textAlign := some orig.textAlign, textTransform := some orig.textTransform
                  letterSpacing := some orig.letterSpacing
                  borderLeft := some ("3px solid " ++ orig.color) }
    | .preset p =>
        let st := { st with fontFamily := some p.fontFamily, lineHeight := some p.lineHeight
                            fontStyle := some p.fontStyle, color := some p.color
                            fontSize := some p.fontSize, borderLeft := some p.borderLeft }
        let st := match p.backgroundColor with
                  | some b => { st with backgroundColor := some b }
                  | none => st
        match p.padding with
        | some v => { st with padding := some v }
        | none => st

/-- The new value of a placeholder entry after `updateTranslation` fires on
it: spinner cleared, text set, loading class swapped for done, style
re-resolved. -/
def renderEntry (ss : StyleSettings) (e : PlacEntry) (translatedText : String) : PlacEntry :=
  { e with node :=
    { hasSpinner := false
      content := translatedText
      loadingClass := false
      doneClass := true
      style := renderStyle ss translatedText e.originalElement.computed e.node.style } }

/-- `updateTranslation` (content.js lines 194-233).  A missing placeholder is
a silent no-op. -/
def updateTranslation (pg : Page) (originalText translatedText : String) : Page :=
  match mapGet pg.placeholders originalText with
  | none => pg
  | some e =>
      { pg with placeholders :=
          mapSet pg.placeholders originalText (renderEntry pg.styleSettings e translatedText) }

/-- The communication-error sentinel built in the `catch` of `processQueue`:
`[翻译通信错误: ${error.message}]`. -/
def commErrSentinel (msg : String) : String :=
  "[翻译通信错误: " ++ msg ++ "]"

/-- Resolution of the awaited `chrome.runtime.sendMessage` call in
`processQueue` (content.js lines 136-156).  `Except.ok` is the resolved
promise (`none` for a falsy `undefined` response), `Except.error` the
rejected one.  The success branch re-checks `isTranslationActive`; the catch
branch updates every text of the batch to the communication-error sentinel
without re-checking it. -/
def resolveResponse (pg : Page) (textsToTranslate : List String)
    (outcome : Except String (Option (List (String × String)))) : Page :=
  match outcome with
  | .ok tm =>
      match tm with
      | some translationMap =>
          if pg.isTranslationActive then
            translationMap.foldl (fun pg kv => updateTranslation pg kv.1 kv.2) pg
          else pg
      | none => pg
  | .error msg =>
      textsToTranslate.foldl (fun pg t => updateTranslation pg t (commErrSentinel msg)) pg

/-! ## Session / batch-accumulator trace machine

The per-page manager object of content.js, restricted to the state the
batching claims are about.  Placeholder rendering is modelled separately
above; here `placeholderKeys` only records which texts already own a
placeholder (the dedup check of `createPlaceholdersFor`) and `dispatched`
logs every batch handed to `processQueue` past its guard, together with the
session's `contentBatchSize` at that moment. -/

structure TM where
  isTranslationActive : Bool
  /-- whether `this.observer` is non-null. -/
  observerStored : Bool
  /-- number of `IntersectionObserver`s created and not yet disconnected. -/
  connectedObservers : Nat
  /-- `this.accumulationQueue`, a JS `Set` in insertion order. -/
  accumulationQueue : List Element
  /-- ids of elements carrying `dataset.translationRequested`. -/
  requestedIds : List Nat
  /-- ids of elements carrying `dataset.translated`. -/
  translatedIds : List Nat
  /-- texts already owning a placeholder (`translationPlaceholders.has`). -/
  placeholderKeys : List String
  /-- whether a flush timer (`this.queueTimeout`) is pending. -/
  queueTimeout : Bool
  contentBatchSize : Nat
  stylesInjected : Bool
  /-- log of batches sent to the dispatcher, with the session batch size. -/
  dispatched : List (List Element × Nat)
deriving DecidableEq, Repr

/-- The manager right after injection (content.js lines 12-21). -/
def initTM : TM :=
  { isTranslationActive := false, observerStored := false, connectedObservers := 0
    accumulationQueue := [], requestedIds := [], translatedIds := []
    placeholderKeys := [], queueTimeout := false, contentBatchSize := 30
    stylesInjected := false, dispatched := [] }

/-- `Set.add`: append only when absent. -/
def setAdd (q : List Element) (e : Element) : List Element :=
  if e ∈ q then q else q ++ [e]

/-- The `while (size >= contentBatchSize)` loop of `triggerBatchProcessing`,
split into the list of full batches cut (in order) and the remainder.  The
fuel equals the queue length; one unit per iteration suffices because each
iteration removes `bs ≥ 1` elements (for `bs = 0` the JS loop would never
terminate, but `loadSettings` guarantees `contentBatchSize > 0`). -/
def cutBatchesAux : Nat → Nat → List Element → List (List Element) × List Element
  | 0, _, q => ([], q)
  | fuel + 1, bs, q =>
    if 0 < bs ∧ bs ≤ q.length then
      let r := cutBatchesAux fuel bs (q.drop bs)
      (q.take bs :: r.1, r.2)
    else ([], q)

def cutBatches (bs : Nat) (q : List Element) : List (List Element) × List Element :=
  cutBatchesAux q.length bs q

/-- The placeholder-creation side effect of `processQueue` as seen by the
trace machine: each element whose text has no placeholder yet gets one (its
text is recorded) and is marked `dataset.translated`. -/
def placeholderStep (s : TM) (p : Element) : TM :=
  if s.placeholderKeys.contains p.innerText then s
  else { s with placeholderKeys := s.placeholderKeys ++ [p.innerText]
                translatedIds := s.translatedIds ++ [p.id] }

def createPlaceholdersTM (s : TM) (batch : List Element) : TM :=
  batch.foldl placeholderStep s

/-- `processQueue` up to the send (content.js lines 125-140): the guard on an
empty batch or inactive session, placeholder creation, then one message
carrying the batch, which we log. -/
def dispatchBatch (s : TM) (elementsToTranslate : List Element) : TM :=
  if elementsToTranslate.length = 0 ∨ s.isTranslationActive = false then s
  else
    let s := createPlaceholdersTM s elementsToTranslate
    { s with dispatched := s.dispatched ++ [(elementsToTranslate, s.contentBatchSize)] }

/-- `triggerBatchProcessing` (content.js lines 90-109): cut and dispatch full
batches while possible, then (re)arm the flush timer iff a remainder is
left.  The code removes each batch from the queue just before dispatching
it; cutting all batches first and setting the queue to the remainder yields
the same state because `processQueue` does not read the queue. -/
def trigger (s : TM) : TM :=
  let c := cutBatches s.contentBatchSize s.accumulationQueue
  let s' := c.1.foldl dispatchBatch { s with accumulationQueue := c.2 }
  if 0 < c.2.length then { s' with queueTimeout := true } else s'

/-- Body of the `entries.forEach` of `handleIntersection` (content.js lines
66-81): an intersecting, unmarked element with trimmed text longer than 3 is
added to the queue and marked requested; the Bool tracks `newItemsAdded`.
(`observer.unobserve` affects neither the queue nor the observer's
connected-ness.) -/
def observeEntry (acc : TM × Bool) (entry : Element × Bool) : TM × Bool :=
  let s := acc.1
  if entry.2 then
    if entry.1.id ∉ s.translatedIds ∧ entry.1.id ∉ s.requestedIds ∧
        entry.1.innerText ≠ "" ∧ 3 < (strTrim entry.1.innerText).length then
      ({ s with accumulationQueue := setAdd s.accumulationQueue entry.1
                requestedIds := s.requestedIds ++ [entry.1.id] }, true)
    else acc
  else acc

/-- `handleIntersection` (content.js lines 62-87). -/
def handleIntersection (s : TM) (entries : List (Element × Bool)) : TM :=
  if s.isTranslationActive = false then s
  else
    let r := entries.foldl observeEntry (s, false)
    if r.2 then trigger r.1 else r.1

/-- The flush-timer callback of `debouncedProcessQueue` (content.js lines
113-122) firing: only possible while the timer is pending; it drains the
queue and dispatches the remainder when non-empty. -/
def timerFireStep (s : TM) : TM :=
  if s.queueTimeout then
    let remainingElements := s.accumulationQueue
    let s' := { s with accumulationQueue := [], queueTimeout := false }
    if 0 < remainingElements.length then dispatchBatch s' remainingElements else s'
  else s

/-- `start()` (content.js lines 23-43), run to completion as one step: no-op
when already active, otherwise activate, load the batch size from storage,
create and connect a fresh observer and inject the spinner styles.  This
collapses the suspension at `await this.loadSettings()` (line 30) into an
atomic step; it is exactly the composite `startBegin` followed immediately
by `startResume` of the refined session machine below
(`completedStart_composite`), which keeps the suspension and is used for the
start/stop re-entrancy claim. -/
def startStep (s : TM) (storedBatchSize : Nat) : TM :=
  if s.isTranslationActive then s
  else
    { s with isTranslationActive := true
             contentBatchSize := loadedBatchSize storedBatchSize
             observerStored := true
             connectedObservers := s.connectedObservers + 1
             stylesInjected := true }

/-- `stop()` (content.js lines 45-60): no-op when idle, otherwise deactivate,
disconnect and drop the observer, cancel the flush timer and clear the
queue. -/
def stopStep (s : TM) : TM :=
  if s.isTranslationActive = false then s
  else
    { s with isTranslationActive := false
             connectedObservers :=
               if s.observerStored then s.connectedObservers - 1 else s.connectedObservers
             observerStored := false
             queueTimeout := false
             accumulationQueue := [] }

/-- The discrete events the manager reacts to on the page's event loop. -/
inductive Ev where
  | startCmd : Nat → Ev
  | stopCmd : Ev
  | intersect : List (Element × Bool) → Ev
  | timerFire : Ev
deriving DecidableEq, Repr

def step (s : TM) : Ev → TM
  | .startCmd b => startStep s b
  | .stopCmd => stopStep s
  | .intersect entries => handleIntersection s entries
  | .timerFire => timerFireStep s

def run (evs : List Ev) (s : TM) : TM :=
  evs.foldl step s

/-! ## background.js batch handler -/

/-- Outcome of one `translateWithX(text, ...)` call as observed by the
per-text promise of `handleTranslationBatch`: a string result (recorded in
the map), a non-string resolution (DeepL with an empty `translations` array
resolves `undefined`, which the `typeof` check drops), or a rejection with
an error message. -/
inductive TransOutcome where
  | str : String → TransOutcome
  | nonstr : TransOutcome
  | fail : String → TransOutcome
deriving DecidableEq, Repr

/-- The per-text failure sentinel: `[翻译失败: ${error.message}]`. -/
def failSentinel (msg : String) : String :=
  "[翻译失败: " ++ msg ++ "]"

/-- `errorMessage.includes('429') || errorMessage.includes('quota')` on the
lower-cased message. -/
def isRateLimitMsg (msg : String) : Bool :=
  strIncludes (strToLower msg) "429" || strIncludes (strToLower msg) "quota"

/-- The stored settings `handleTranslationBatch` reads. -/
structure BgSettings where
  translationService : String
  apiKeyDeepl : String
  apiKeyGemini : String
  apiKeyDeepseek : String
  batchSize : Nat
deriving DecidableEq, Repr

/-- `settings.apiKeys[settings.translationService]`: `none` models the
`undefined` of an unknown service name. -/
def currentApiKey (s : BgSettings) : Option String :=
  if s.translationService = "deepl" then some s.apiKeyDeepl
  else if s.translationService = "gemini" then some s.apiKeyGemini
  else if s.translationService = "deepseek" then some s.apiKeyDeepseek
  else none

/-- The chunking of the received texts by the
`for (let i = 0; i < texts.length; i += batchSize)` loop.  Fuel as in
`cutBatchesAux`; `batchSize = 0` would make the JS loop diverge. -/
def chunkTextsAux : Nat → Nat → List String → List (List String)
  | 0, _, _ => []
  | fuel + 1, bs, ts =>
    if ts.isEmpty then [] else ts.take bs :: chunkTextsAux fuel bs (ts.drop bs)

def chunkTexts (bs : Nat) (ts : List String) : List (List String) :=
  chunkTextsAux ts.length bs ts

/-- Whether some text of a sub-batch rejects with a rate-limit message.
Such a promise rethrows `RateLimitError` (background.js line 145), so
`Promise.all` over the sub-batch rejects; this does not depend on timing. -/
def chunkHit (translate : String → TransOutcome) (c : List String) : Bool :=
  c.any fun t =>
    match translate t with
    | .fail msg => isRateLimitMsg msg
    | _ => false

/-- One per-text promise of a sub-batch as observed in `translationMap`: a
string result or a failure sentinel is written when the promise's write
lands before the handler returns (`writes text`), and the Bool accumulates
whether some rejection matched the rate-limit test. -/
def chunkStep (translate : String → TransOutcome) (writes : String → Bool)
    (acc : List (String × String) × Bool) (text : String) : List (String × String) × Bool :=
  match translate text with
  | .str s => ((if writes text then mapSet acc.1 text s else acc.1), acc.2)
  | .nonstr => acc
  | .fail msg =>
      ((if writes text then mapSet acc.1 text (failSentinel msg) else acc.1),
       acc.2 || isRateLimitMsg msg)

/-- One sub-batch of `handleTranslationBatch` (background.js lines 123-151).
`await Promise.all(promises)` (line 151) waits for every promise of a
sub-batch without a rate-limited rejection, so each such promise's
`translationMap` write lands before the loop continues.  When one promise
rethrows `RateLimitError` (line 145), `Promise.all` rejects eagerly: a
sibling promise of that sub-batch writes its entry only if it settled
before the rejection propagated and the handler returned.  Which siblings
did is timing-dependent, so the model takes it as an oracle `settled`; in
every real execution the text whose throw aborted the sub-batch has itself
settled (its `translationMap[text] = ...` on line 141 precedes the throw on
line 145). -/
def processChunk (translate : String → TransOutcome) (settled : String → Bool)
    (m : List (String × String)) (chunk : List String) : List (String × String) × Bool :=
  chunk.foldl
    (chunkStep translate (fun t => !(chunkHit translate chunk) || settled t)) (m, false)

/-- The chunk loop of `handleTranslationBatch`: a sub-batch whose
`Promise.all` rejected with `RateLimitError` makes the loop `break`, leaving
all later sub-batches unprocessed. -/
def runChunks (translate : String → TransOutcome) (settled : String → Bool)
    (m : List (String × String)) : List (List String) → List (String × String)
  | [] => m
  | c :: rest =>
    let r := processChunk translate settled m c
    if r.2 then r.1 else runChunks translate settled r.1 rest

/-- `handleTranslationBatch` (background.js lines 99-166): throws before the
loop when the configured service has no API key, otherwise runs the chunk
loop and resolves with the accumulated map. -/
def handleTranslationBatch (settings : BgSettings) (translate : String → TransOutcome)
    (settled : String → Bool) (texts : List String) :
    Except String (List (String × String)) :=
  match currentApiKey settings with
  | none =>
      .error ("API Key for service \"" ++ settings.translationService ++ "\" is not set.")
  | some k =>
      if k = "" then
        .error ("API Key for service \"" ++ settings.translationService ++ "\" is not set.")
      else
        .ok (runChunks translate settled [] (chunkTexts settings.batchSize texts))

/-- The `translate_batch` arm of the background message listener
(background.js lines 63-70): a resolved handler is sent as the response, a
rejected one is converted to `sendResponse({})`. -/
def onMessageTranslateBatch (settings : BgSettings) (translate : String → TransOutcome)
    (settled : String → Bool) (texts : List String) : List (String × String) :=
  match handleTranslationBatch settings translate settled texts with
  | .ok m => m
  | .error _ => []

/-- The sub-batches the chunk loop actually processes: everything up to and
including the first rate-limited one. -/
def processedChunks (translate : String → TransOutcome) : List (List String) → List (List String)
  | [] => []
  | c :: rest => if chunkHit translate c then [c] else c :: processedChunks translate rest

/-- The map entry a processed text ends up with. -/
def outcomeEntry : TransOutcome → Option String
  | .str s => some s
  | .nonstr => none
  | .fail msg => some (failSentinel msg)

/-! ## Association-map lemmas -/

theorem mapGet_set_self {α : Type} (m : List (String × α)) (k : String) (v : α) :
    mapGet (mapSet m k v) k = some v := by
  induction m with
  | nil => simp [mapSet, mapGet]
  | cons kv rest ih =>
      obtain ⟨k', v'⟩ := kv
      by_cases h : k' = k
      · simp [mapSet, h, mapGet]
      · simp [mapSet, h, mapGet, ih]

theorem mapGet_set_ne {α : Type} (m : List (String × α)) (k u : String) (v : α)
    (h : u ≠ k) : mapGet (mapSet m k v) u = mapGet m u := by
  have h' : k ≠ u := Ne.symm h
  induction m with
  | nil => simp [mapSet, mapGet, h']
  | cons kv rest ih =>
      obtain ⟨k', v'⟩ := kv
      by_cases hk : k' = k
      · subst hk
        simp [mapSet, mapGet, h']
      · by_cases hu : k' = u
        · subst hu
          simp [mapSet, mapGet, hk, h]
        · simp [mapSet, mapGet, hk, hu, ih]

theorem mapSet_set {α : Type} (m : List (String × α)) (k : String) (v v' : α) :
    mapSet (mapSet m k v) k v' = mapSet m k v' := by
  induction m with
  | nil => simp [mapSet]
  | cons kv rest ih =>
      obtain ⟨k', w⟩ := kv
      by_cases h : k' = k
      · simp [mapSet, h]
      · simp [mapSet, h, ih]

theorem mapSet_keys_of_isSome {α : Type} (m : List (String × α)) (k : String) (v : α)
    (h : (mapGet m k).isSome = true) :
    (mapSet m k v).map Prod.fst = m.map Prod.fst := by
  induction m with
  | nil => simp [mapGet] at h
  | cons kv rest ih =>
      obtain ⟨k', w⟩ := kv
      by_cases hk : k' = k
      · simp [mapSet, hk]
      · simp [mapGet, hk] at h
        simp [mapSet, hk, ih h]

theorem mapGet_eq_none_of_not_mem {α : Type} (m : List (String × α)) (k : String)
    (h : k ∉ m.map Prod.fst) : mapGet m k = none := by
  induction m with
  | nil => rfl
  | cons kv rest ih =>
      obtain ⟨k', w⟩ := kv
      simp only [List.map_cons, List.mem_cons] at h
      push_neg at h
      simp [mapGet, Ne.symm h.1, ih h.2]

theorem not_mem_keys_of_mapGet_none {α : Type} (m : List (String × α)) (k : String)
    (h : mapGet m k = none) : k ∉ m.map Prod.fst := by
  induction m with
  | nil => simp
  | cons kv rest ih =>
      obtain ⟨k', w⟩ := kv
      by_cases hk : k' = k
      · simp [mapGet, hk] at h
      · simp only [mapGet, hk, if_false] at h
        simp [Ne.symm hk, ih h]

theorem mapGet_append_self_of_none {α : Type} (m : List (String × α)) (k : String) (v : α)
    (h : mapGet m k = none) : mapGet (m ++ [(k, v)]) k = some v := by
  induction m with
  | nil => simp [mapGet]
  | cons kv rest ih =>
      obtain ⟨k', w⟩ := kv
      by_cases hk : k' = k
      · simp [mapGet, hk] at h
      · simp only [mapGet, hk, if_false] at h
        simp [mapGet, hk, ih h]

/-! ## updateTranslation lemmas -/

theorem updateTranslation_active (pg : Page) (t v : String) :
    (updateTranslation pg t v).isTranslationActive = pg.isTranslationActive := by
  unfold updateTranslation
  cases mapGet pg.placeholders t <;> rfl

theorem updateTranslation_styleSettings (pg : Page) (t v : String) :
    (updateTranslation pg t v).styleSettings = pg.styleSettings := by
  unfold updateTranslation
  cases mapGet pg.placeholders t <;> rfl

theorem updateTranslation_insertedAfter (pg : Page) (t v : String) :
    (updateTranslation pg t v).insertedAfter = pg.insertedAfter := by
  unfold updateTranslation
  cases mapGet pg.placeholders t <;> rfl

theorem mapGet_updateTranslation_ne (pg : Page) (t v u : String) (h : u ≠ t) :
    mapGet (updateTranslation pg t v).placeholders u = mapGet pg.placeholders u := by
  unfold updateTranslation
  cases hm : mapGet pg.placeholders t with
  | none => rfl
  | some e => simpa using mapGet_set_ne pg.placeholders t u _ h

theorem mapGet_updateTranslation_self (pg : Page) (t v : String) (e : PlacEntry)
    (h : mapGet pg.placeholders t = some e) :
    mapGet (updateTranslation pg t v).placeholders t =
      some (renderEntry pg.styleSettings e v) := by
  unfold updateTranslation
  rw [h]
  simpa using mapGet_set_self pg.placeholders t _

theorem updateTranslation_isSome (pg : Page) (t v u : String) :
    (mapGet (updateTranslation pg t v).placeholders u).isSome =
      (mapGet pg.placeholders u).isSome := by
  by_cases hu : u = t
  · subst hu
    cases hm : mapGet pg.placeholders u with
    | none => unfold updateTranslation; rw [hm]; rw [hm]
    | some e => rw [mapGet_updateTranslation_self pg u v e hm]; rfl
  · rw [mapGet_updateTranslation_ne pg t v u hu]

theorem updateTranslation_keys (pg : Page) (t v : String) :
    (updateTranslation pg t v).placeholders.map Prod.fst =
      pg.placeholders.map Prod.fst := by
  unfold updateTranslation
  cases hm : mapGet pg.placeholders t with
  | none => rfl
  | some e =>
      simpa using mapSet_keys_of_isSome pg.placeholders t _ (by simp [hm])

/-- The communication-error sentinel always passes the error-prefix test of
`updateTranslation`. -/
theorem commErrSentinel_isError (msg : String) :
    isErrorSentinel (commErrSentinel msg) = true := by
  cases msg
  rfl

/-- A rendered error entry: loading class gone, done class set, content and
error styling fixed, independent of the style settings. -/
theorem renderEntry_error (ss : StyleSettings) (e : PlacEntry) (v : String)
    (hv : isErrorSentinel v = true) :
    (renderEntry ss e v).node.loadingClass = false ∧
    (renderEntry ss e v).node.doneClass = true ∧
    (renderEntry ss e v).node.content = v ∧
    (renderEntry ss e v).node.style.color = some "#d9534f" ∧
    (renderEntry ss e v).node.style.borderLeft = some "3px solid #d9534f" := by
  simp [renderEntry, renderStyle, hv]

/-- Folding the error update over texts not containing `t` leaves `t`'s
placeholder untouched. -/
theorem errFold_preserve (ts : List String) (pg : Page) (msg t : String) (h : t ∉ ts) :
    mapGet (ts.foldl (fun pg u => updateTranslation pg u (commErrSentinel msg)) pg).placeholders t
      = mapGet pg.placeholders t := by
  induction ts generalizing pg with
  | nil => rfl
  | cons u rest ih =>
      simp only [List.mem_cons] at h
      push_neg at h
      simp only [List.foldl_cons]
      rw [ih _ h.2, mapGet_updateTranslation_ne pg u _ t h.1]

theorem errFold_renders (ts : List String) (pg : Page) (msg t : String)
    (ht : t ∈ ts) (he : (mapGet pg.placeholders t).isSome = true) :
    ∃ e', mapGet (ts.foldl (fun pg u => updateTranslation pg u (commErrSentinel msg)) pg).placeholders t
        = some e' ∧
      e'.node.loadingClass = false ∧ e'.node.doneClass = true ∧
      e'.node.content = commErrSentinel msg ∧
      e'.node.style.color = some "#d9534f" := by
  induction ts generalizing pg with
  | nil => cases ht
  | cons u rest ih =>
      simp only [List.foldl_cons]
      by_cases hr : t ∈ rest
      · exact ih _ hr (by rw [updateTranslation_isSome]; exact he)
      · have htu : t = u := by
          rcases List.mem_cons.mp ht with h | h
          · exact h
          · exact absurd h hr
        subst htu
        obtain ⟨e, hee⟩ := Option.isSome_iff_exists.mp he
        rw [errFold_preserve rest _ msg t hr,
          mapGet_updateTranslation_self pg t _ e hee]
        refine ⟨_, rfl, ?_⟩
        have := renderEntry_error pg.styleSettings e (commErrSentinel msg)
          (commErrSentinel_isError msg)
        exact ⟨this.1, this.2.1, this.2.2.1, this.2.2.2.1⟩

/-- C5: for every dispatched batch whose collaborator call rejects, every
placeholder existing for a text of the batch transitions to the error state
carrying the communication-error sentinel built from the rejection message,
and none of them stays in the loading state. -/
theorem c5_reject_error_render (pg : Page) (texts : List String) (msg t : String)
    (ht : t ∈ texts) (he : (mapGet pg.placeholders t).isSome = true) :
    ∃ e', mapGet (resolveResponse pg texts (Except.error msg)).placeholders t = some e' ∧
      e'.node.loadingClass = false ∧ e'.node.doneClass = true ∧
      e'.node.content = commErrSentinel msg ∧
      e'.node.style.color = some "#d9534f" := by
  simpa [resolveResponse] using errFold_renders texts pg msg t ht he

def c5Page : Page :=
  { isTranslationActive := true
    styleSettings := StyleSettings.preset defaultPreset
    placeholders :=
      [("one", ⟨newPlaceholderNode, ⟨1, "one", ⟨"A", "12px", "400", "normal", "black", "1.4", "left", "none", "0"⟩⟩⟩),
       ("two", ⟨newPlaceholderNode, ⟨2, "two", ⟨"A", "12px", "400", "normal", "black", "1.4", "left", "none", "0"⟩⟩⟩),
       ("three", ⟨newPlaceholderNode, ⟨3, "three", ⟨"A", "12px", "400", "normal", "black", "1.4", "left", "none", "0"⟩⟩⟩)]
    insertedAfter := [1, 2, 3]
    translatedIds := [1, 2, 3] }

theorem c5_reject_error_render_witness :
    ∃ e', mapGet (resolveResponse c5Page ["one", "two", "three"] (Except.error "boom")).placeholders "two"
        = some e' ∧
      e'.node.loadingClass = false ∧ e'.node.doneClass = true ∧
      e'.node.content = commErrSentinel "boom" ∧
      e'.node.style.color = some "#d9534f" :=
  c5_reject_error_render c5Page ["one", "two", "three"] "boom" "two"
    (by decide) (by decide)

def c4Page : Page :=
  { isTranslationActive := false
    styleSettings := StyleSettings.preset defaultPreset
    placeholders :=
      [("hello", ⟨newPlaceholderNode, ⟨1, "hello", ⟨"A", "12px", "400", "normal", "black", "1.4", "left", "none", "0"⟩⟩⟩)]
    insertedAfter := [1]
    translatedIds := [1] }

/-- C4 counterexample: with the session stopped and a placeholder still
present, a rejection of the collaborator call is NOT discarded — the catch
branch of `processQueue` renders the communication error without re-checking
the active flag, so the placeholder leaves the loading state. -/
theorem c4_reject_renders_after_stop_cex :
    c4Page.isTranslationActive = false ∧
    resolveResponse c4Page ["hello"] (Except.error "boom") ≠ c4Page ∧
    (mapGet (resolveResponse c4Page ["hello"] (Except.error "boom")).placeholders "hello").map
      (fun e => e.node.loadingClass) = some false := by
  refine ⟨rfl, ?_, by decide⟩
  decide

/-- C4 amended: when the session has been stopped before the response
resolves, a resolved translation map (or an `undefined` response) is
discarded without rendering — the active flag is re-checked in the success
branch — but a rejection is rendered as communication-error placeholders for
the batch's texts with no such re-check. -/
theorem c4_stop_discard_amended (pg : Page) (texts : List String)
    (tm : Option (List (String × String))) (msg : String)
    (h : pg.isTranslationActive = false) :
    resolveResponse pg texts (Except.ok tm) = pg ∧
    resolveResponse pg texts (Except.error msg) =
      texts.foldl (fun p t => updateTranslation p t (commErrSentinel msg)) pg := by
  refine ⟨?_, rfl⟩
  cases tm with
  | none => rfl
  | some m => simp [resolveResponse, h]

theorem c4_stop_discard_amended_witness :
    resolveResponse c4Page ["hello"] (Except.ok (some [("hello", "X")])) = c4Page :=
  (c4_stop_discard_amended c4Page ["hello"] (some [("hello", "X")]) "m" rfl).1

/-! ## C7: idempotence of updateTranslation -/

theorem updateTranslation_none (pg : Page) (t v : String)
    (h : mapGet pg.placeholders t = none) : updateTranslation pg t v = pg := by
  unfold updateTranslation
  rw [h]

theorem updateTranslation_some (pg : Page) (t v : String) (e : PlacEntry)
    (h : mapGet pg.placeholders t = some e) :
    updateTranslation pg t v =
      { pg with placeholders :=
          mapSet pg.placeholders t (renderEntry pg.styleSettings e v) } := by
  unfold updateTranslation
  rw [h]

/-- Re-rendering with a plain preset (no `backgroundColor`/`padding` keys)
overwrites every style property the previous rendering touched: the error
branch and such a preset branch assign exactly the same property set. -/
theorem renderStyle_preset_overwrite (p : PresetStyle)
    (hb : p.backgroundColor = none) (hp : p.padding = none)
    (v1 v2 : String) (o1 o2 : ComputedStyle) (st : Style) :
    renderStyle (.preset p) v2 o2 (renderStyle (.preset p) v1 o1 st) =
      renderStyle (.preset p) v2 o2 st := by
  obtain ⟨f1, f2, f3, f4, f5, f6, f7, f8, f9, f10, f11, f12, f13, f14⟩ := st
  cases h1 : isErrorSentinel v1 <;> cases h2 : isErrorSentinel v2 <;>
    simp [renderStyle, hb, hp, h1, h2]

theorem renderEntry_preset_overwrite (p : PresetStyle)
    (hb : p.backgroundColor = none) (hp : p.padding = none)
    (e : PlacEntry) (v1 v2 : String) :
    renderEntry (.preset p) (renderEntry (.preset p) e v1) v2 =
      renderEntry (.preset p) e v2 := by
  unfold renderEntry
  simp [renderStyle_preset_overwrite p hb hp]

/-- C7 amended: with the style settings being a plain preset — one of
`default`, `subtle` or the custom preset, which carry no
`backgroundColor`/`padding` keys — updating the same text twice leaves the
page exactly as updating it once with the second result, and an update never
adds or removes placeholder entries.  (For the `highlighted` preset and for
"match original style" this fails: properties the second rendering does not
assign survive from the first, see the counterexample.) -/
theorem c7_update_idempotent_amended (pg : Page) (t r1 r2 : String) (p : PresetStyle)
    (hps : pg.styleSettings = StyleSettings.preset p)
    (hb : p.backgroundColor = none) (hpd : p.padding = none) :
    updateTranslation (updateTranslation pg t r1) t r2 = updateTranslation pg t r2 ∧
    (updateTranslation pg t r1).placeholders.map Prod.fst =
      pg.placeholders.map Prod.fst := by
  refine ⟨?_, updateTranslation_keys pg t r1⟩
  cases hm : mapGet pg.placeholders t with
  | none =>
      rw [updateTranslation_none pg t r1 hm]
  | some e =>
      rw [updateTranslation_some pg t r1 e hm]
      have hm1 : mapGet (mapSet pg.placeholders t (renderEntry pg.styleSettings e r1)) t
          = some (renderEntry pg.styleSettings e r1) := mapGet_set_self _ _ _
      rw [updateTranslation_some _ t r2 _ hm1, updateTranslation_some pg t r2 e hm]
      simp only [mapSet_set]
      rw [hps, renderEntry_preset_overwrite p hb hpd]

def c7Page : Page :=
  { isTranslationActive := true
    styleSettings := StyleSettings.preset highlightedPreset
    placeholders :=
      [("t", ⟨newPlaceholderNode, ⟨1, "t", ⟨"A", "12px", "400", "normal", "black", "1.4", "left", "none", "0"⟩⟩⟩)]
    insertedAfter := [1]
    translatedIds := [1] }

/-- C7 counterexample: with the `highlighted` preset, rendering a successful
result and then an error sentinel leaves the `backgroundColor` assigned by
the first rendering in place, while a single error rendering never assigns
it — so update-twice differs from update-once in the applied style
properties. -/
theorem c7_update_not_idempotent_cex :
    (mapGet (updateTranslation (updateTranslation c7Page "t" "ok") "t" "[翻译失败: x]").placeholders "t").map
        (fun e => e.node.style.backgroundColor) = some (some "#fffbe6") ∧
    (mapGet (updateTranslation c7Page "t" "[翻译失败: x]").placeholders "t").map
        (fun e => e.node.style.backgroundColor) = some none ∧
    updateTranslation (updateTranslation c7Page "t" "ok") "t" "[翻译失败: x]" ≠
      updateTranslation c7Page "t" "[翻译失败: x]" := by
  refine ⟨by decide, by decide, ?_⟩
  decide

def c7wPage : Page :=
  { isTranslationActive := true
    styleSettings := StyleSettings.preset defaultPreset
    placeholders :=
      [("t", ⟨newPlaceholderNode, ⟨1, "t", ⟨"A", "12px", "400", "normal", "black", "1.4", "left", "none", "0"⟩⟩⟩)]
    insertedAfter := [1]
    translatedIds := [1] }

theorem c7_update_idempotent_amended_witness :
    updateTranslation (updateTranslation c7wPage "t" "A") "t" "B" =
      updateTranslation c7wPage "t" "B" :=
  (c7_update_idempotent_amended c7wPage "t" "A" "B" defaultPreset rfl rfl rfl).1

/-! ## C9: placeholder dedup per distinct source text -/

theorem createOnePlaceholder_active (pg : Page) (p : Element) :
    (createOnePlaceholder pg p).isTranslationActive = pg.isTranslationActive := by
  unfold createOnePlaceholder
  split <;> try rfl
  split <;> rfl

theorem createPlaceholders_keys_nodup (es : List Element) (q : Page)
    (h : (q.placeholders.map Prod.fst).Nodup) :
    ((createPlaceholdersFor q es).placeholders.map Prod.fst).Nodup := by
  induction es generalizing q with
  | nil => exact h
  | cons e rest ih =>
      refine ih _ ?_
      unfold createOnePlaceholder
      split
      · exact h
      · split
        · exact h
        · rename_i hne
          have hnone : mapGet q.placeholders e.innerText = none :=
            Option.not_isSome_iff_eq_none.mp hne
          have hmem := not_mem_keys_of_mapGet_none _ _ hnone
          simp only [List.map_append]
          simp [List.nodup_append, h, hmem]

/-- C9: at most one placeholder per distinct source text — placeholder keys
stay duplicate-free — and when two elements of one batch share the same
text, only the first element receives an inserted placeholder node keyed by
that text, the second creation being skipped (so both texts resolve through
the single map entry). -/
theorem c9_placeholder_dedup (pg : Page) (e1 e2 : Element) (txt : String)
    (ha : pg.isTranslationActive = true) (h1 : e1.innerText = txt)
    (h2 : e2.innerText = txt) (hnone : mapGet pg.placeholders txt = none) :
    (createPlaceholdersFor pg [e1, e2]).placeholders
        = pg.placeholders ++ [(txt, ⟨newPlaceholderNode, e1⟩)] ∧
    (createPlaceholdersFor pg [e1, e2]).insertedAfter
        = pg.insertedAfter ++ [e1.id] ∧
    ∀ (q : Page) (es : List Element), (q.placeholders.map Prod.fst).Nodup →
      ((createPlaceholdersFor q es).placeholders.map Prod.fst).Nodup := by
  have hstep1 : createOnePlaceholder pg e1 =
      { pg with
        placeholders := pg.placeholders ++ [(txt, ⟨newPlaceholderNode, e1⟩)]
        insertedAfter := pg.insertedAfter ++ [e1.id]
        translatedIds := pg.translatedIds ++ [e1.id] } := by
    unfold createOnePlaceholder
    rw [h1]
    simp [ha, hnone]
  have hstep2 : createOnePlaceholder (createOnePlaceholder pg e1) e2 =
      createOnePlaceholder pg e1 := by
    rw [hstep1]
    unfold createOnePlaceholder
    rw [h2]
    simp only [ha]
    rw [mapGet_append_self_of_none pg.placeholders txt _ hnone]
    simp
  refine ⟨?_, ?_, fun q es h => createPlaceholders_keys_nodup es q h⟩
  · show (createOnePlaceholder (createOnePlaceholder pg e1) e2).placeholders = _
    rw [hstep2, hstep1]
  · show (createOnePlaceholder (createOnePlaceholder pg e1) e2).insertedAfter = _
    rw [hstep2, hstep1]

def c9Page : Page :=
  { isTranslationActive := true
    styleSettings := StyleSettings.preset defaultPreset
    placeholders := []
    insertedAfter := []
    translatedIds := [] }

def c9Elem1 : Element :=
  ⟨1, "same text", ⟨"A", "12px", "400", "normal", "black", "1.4", "left", "none", "0"⟩⟩

def c9Elem2 : Element :=
  ⟨2, "same text", ⟨"B", "14px", "700", "italic", "red", "1.6", "right", "none", "0"⟩⟩

theorem c9_placeholder_dedup_witness :
    (createPlaceholdersFor c9Page [c9Elem1, c9Elem2]).placeholders
        = c9Page.placeholders ++ [("same text", ⟨newPlaceholderNode, c9Elem1⟩)] ∧
    (createPlaceholdersFor c9Page [c9Elem1, c9Elem2]).insertedAfter
        = c9Page.insertedAfter ++ [c9Elem1.id] :=
  ⟨(c9_placeholder_dedup c9Page c9Elem1 c9Elem2 "same text" rfl rfl rfl rfl).1,
   (c9_placeholder_dedup c9Page c9Elem1 c9Elem2 "same text" rfl rfl rfl rfl).2.1⟩

/-! ## C10: background rejection converted to an empty map -/

/-- C10: when the background handler throws before (or outside) its per-text
loop — e.g. the API key of the configured service is unset — the message
listener's catch responds with an empty map instead of a rejection, so the
content script's success branch runs over zero keys: the page is left
exactly as it was, every placeholder of the batch still in its loading
state, and the communication-error branch is never taken. -/
theorem c10_empty_map_on_background_throw (settings : BgSettings)
    (translate : String → TransOutcome) (settled : String → Bool)
    (texts : List String) (pg : Page) (e : String)
    (h : handleTranslationBatch settings translate settled texts = Except.error e) :
    onMessageTranslateBatch settings translate settled texts = [] ∧
    resolveResponse pg texts
        (Except.ok (some (onMessageTranslateBatch settings translate settled texts))) = pg := by
  have hm : onMessageTranslateBatch settings translate settled texts = [] := by
    unfold onMessageTranslateBatch
    rw [h]
  refine ⟨hm, ?_⟩
  rw [hm]
  unfold resolveResponse
  cases hact : pg.isTranslationActive <;> simp [hact]

def c10Settings : BgSettings := ⟨"gemini", "", "", "", 5⟩

def c10Translate : String → TransOutcome := fun _ => TransOutcome.str "X"

def c10Settled : String → Bool := fun _ => true

def c10Page : Page :=
  { isTranslationActive := true
    styleSettings := StyleSettings.preset defaultPreset
    placeholders :=
      [("hello", ⟨newPlaceholderNode, ⟨1, "hello", ⟨"A", "12px", "400", "normal", "black", "1.4", "left", "none", "0"⟩⟩⟩)]
    insertedAfter := [1]
    translatedIds := [1] }

theorem c10_empty_map_on_background_throw_witness :
    onMessageTranslateBatch c10Settings c10Translate c10Settled ["hello"] = [] ∧
    resolveResponse c10Page ["hello"]
        (Except.ok (some (onMessageTranslateBatch c10Settings c10Translate c10Settled ["hello"])))
      = c10Page :=
  c10_empty_map_on_background_throw c10Settings c10Translate c10Settled ["hello"] c10Page
    "API Key for service \"gemini\" is not set." rfl

/-! ## C6: rate-limit abort in background batch handling -/

theorem chunkFold_hit (translate : String → TransOutcome) (w : String → Bool)
    (c : List String) :
    ∀ acc : List (String × String) × Bool,
      (c.foldl (chunkStep translate w) acc).2 = (acc.2 || chunkHit translate c) := by
  induction c with
  | nil => intro acc; simp [chunkHit]
  | cons u rest ih =>
      intro acc
      rw [List.foldl_cons, ih]
      cases htr : translate u <;> cases hw : w u <;>
        simp [chunkStep, chunkHit, htr, hw, List.any_cons, Bool.or_assoc]

theorem chunkFold_get_notmem (translate : String → TransOutcome) (w : String → Bool)
    (t : String) (c : List String) :
    ∀ acc : List (String × String) × Bool, t ∉ c →
      mapGet (c.foldl (chunkStep translate w) acc).1 t = mapGet acc.1 t := by
  induction c with
  | nil => intro acc _; rfl
  | cons u rest ih =>
      intro acc h
      simp only [List.mem_cons] at h
      push_neg at h
      rw [List.foldl_cons, ih _ h.2]
      cases htr : translate u <;> cases hw : w u <;>
        simp [chunkStep, htr, hw, mapGet_set_ne _ _ _ _ h.1]

theorem chunkFold_get_mem (translate : String → TransOutcome) (w : String → Bool)
    (t : String) (c : List String) :
    ∀ acc : List (String × String) × Bool, c.Nodup → t ∈ c → mapGet acc.1 t = none →
      mapGet (c.foldl (chunkStep translate w) acc).1 t =
        (if w t then outcomeEntry (translate t) else none) := by
  induction c with
  | nil => intro acc _ ht; cases ht
  | cons u rest ih =>
      intro acc hnd ht hnone
      rw [List.foldl_cons]
      have hnd' := List.nodup_cons.mp hnd
      by_cases htu : t = u
      · subst htu
        have hrest : t ∉ rest := hnd'.1
        rw [chunkFold_get_notmem translate w t rest _ hrest]
        cases htr : translate t <;> cases hw : w t <;>
          simp [chunkStep, htr, hw, outcomeEntry, mapGet_set_self, hnone]
      · have hrest : t ∈ rest := by
          rcases List.mem_cons.mp ht with h | h
          · exact absurd h htu
          · exact h
        refine ih _ hnd'.2 hrest ?_
        cases htr : translate u <;> cases hw : w u <;>
          simp [chunkStep, htr, hw, mapGet_set_ne _ _ _ _ htu, hnone]

theorem processChunk_hit (translate : String → TransOutcome) (settled : String → Bool)
    (m : List (String × String)) (c : List String) :
    (processChunk translate settled m c).2 = chunkHit translate c := by
  rw [processChunk, chunkFold_hit]
  simp

theorem processChunk_get_notmem (translate : String → TransOutcome)
    (settled : String → Bool) (t : String) (c : List String)
    (m : List (String × String)) (h : t ∉ c) :
    mapGet (processChunk translate settled m c).1 t = mapGet m t := by
  rw [processChunk]
  exact chunkFold_get_notmem translate _ t c (m, false) h

theorem processChunk_get_mem (translate : String → TransOutcome)
    (settled : String → Bool) (t : String) (c : List String)
    (m : List (String × String)) (hnd : c.Nodup) (ht : t ∈ c)
    (hnone : mapGet m t = none) :
    mapGet (processChunk translate settled m c).1 t =
      (if !(chunkHit translate c) || settled t then outcomeEntry (translate t) else none) := by
  rw [processChunk]
  exact chunkFold_get_mem translate _ t c (m, false) hnd ht hnone

theorem runChunks_eq_processedChunks (translate : String → TransOutcome)
    (settled : String → Bool) (chs : List (List String)) :
    ∀ m, runChunks translate settled m chs =
      (processedChunks translate chs).foldl
        (fun m c => (processChunk translate settled m c).1) m := by
  induction chs with
  | nil => intro m; rfl
  | cons c rest ih =>
      intro m
      have hhit := processChunk_hit translate settled m c
      rw [runChunks, processedChunks]
      cases hc : chunkHit translate c
      · rw [hc] at hhit
        simp only [hhit, Bool.false_eq_true, if_false, List.foldl_cons]
        exact ih _
      · rw [hc] at hhit
        simp [hhit]

theorem processedChunks_front (translate : String → TransOutcome)
    (chs : List (List String)) :
    ∃ rest, chs = processedChunks translate chs ++ rest := by
  induction chs with
  | nil => exact ⟨[], rfl⟩
  | cons c r ih =>
      unfold processedChunks
      cases hc : chunkHit translate c
      · obtain ⟨rest, hrest⟩ := ih
        exact ⟨rest, by simpa using congrArg (c :: ·) hrest⟩
      · exact ⟨r, by simp⟩

theorem procFold_get_notmem (translate : String → TransOutcome)
    (settled : String → Bool) (t : String) (chs : List (List String)) :
    ∀ m, t ∉ chs.flatten →
      mapGet (chs.foldl (fun m c => (processChunk translate settled m c).1) m) t
        = mapGet m t := by
  induction chs with
  | nil => intro m _; rfl
  | cons c rest ih =>
      intro m h
      simp only [List.flatten_cons, List.mem_append] at h
      push_neg at h
      rw [List.foldl_cons, ih _ h.2, processChunk_get_notmem translate settled t c m h.1]

theorem procFold_get (translate : String → TransOutcome) (settled : String → Bool)
    (t : String) (chs : List (List String)) :
    ∀ m, (chs.flatten).Nodup → mapGet m t = none →
      (t ∉ chs.flatten →
        mapGet (chs.foldl (fun m c => (processChunk translate settled m c).1) m) t = none) ∧
      (∀ c ∈ chs, t ∈ c →
        mapGet (chs.foldl (fun m c => (processChunk translate settled m c).1) m) t =
          (if !(chunkHit translate c) || settled t then outcomeEntry (translate t) else none)) := by
  induction chs with
  | nil =>
      intro m _ hnone
      exact ⟨fun _ => hnone, fun c hc => absurd hc (List.not_mem_nil c)⟩
  | cons c rest ih =>
      intro m hnd hnone
      simp only [List.flatten_cons] at hnd
      have hparts := List.nodup_append.mp hnd
      constructor
      · intro hmem
        simp only [List.flatten_cons, List.mem_append] at hmem
        push_neg at hmem
        rw [List.foldl_cons]
        have h1 : mapGet (processChunk translate settled m c).1 t = none := by
          rw [processChunk_get_notmem translate settled t c m hmem.1]
          exact hnone
        exact (ih _ hparts.2.1 h1).1 hmem.2
      · intro c' hc' htc'
        rw [List.foldl_cons]
        rcases List.mem_cons.mp hc' with hh | hh
        · subst hh
          have hval := processChunk_get_mem translate settled t c' m hparts.1 htc' hnone
          have hdisj : t ∉ rest.flatten := fun hr => hparts.2.2 htc' hr
          rw [procFold_get_notmem translate settled t rest _ hdisj]
          exact hval
        · have htc : t ∉ c := fun hcm =>
            hparts.2.2 hcm (List.mem_flatten.mpr ⟨c', hh, htc'⟩)
          have h1 : mapGet (processChunk translate settled m c).1 t = none := by
            rw [processChunk_get_notmem translate settled t c m htc]
            exact hnone
          exact (ih _ hparts.2.1 h1).2 c' hh htc'

theorem chunkTextsAux_join (bs : Nat) (hbs : 0 < bs) :
    ∀ (fuel : Nat) (ts : List String), ts.length ≤ fuel →
      (chunkTextsAux fuel bs ts).flatten = ts := by
  intro fuel
  induction fuel with
  | zero =>
      intro ts h
      have : ts = [] := List.eq_nil_of_length_eq_zero (Nat.le_zero.mp h)
      simp [this, chunkTextsAux]
  | succ f ih =>
      intro ts h
      unfold chunkTextsAux
      cases hts : ts.isEmpty
      · simp only [Bool.false_eq_true, if_false, List.flatten_cons]
        rw [ih (ts.drop bs) ?_, List.take_append_drop]
        have hlen : (ts.drop bs).length = ts.length - bs := by simp
        omega
      · simp [List.isEmpty_iff.mp hts]

theorem chunkTexts_join (bs : Nat) (ts : List String) (hbs : 0 < bs) :
    (chunkTexts bs ts).flatten = ts :=
  chunkTextsAux_join bs hbs ts.length ts le_rfl

/-- The texts of the sub-batches the chunk loop reaches before a rate-limit
abort ends it. -/
def processedTexts (translate : String → TransOutcome) (bs : Nat)
    (texts : List String) : List String :=
  (processedChunks translate (chunkTexts bs texts)).flatten

/-- C6 amended: a rate-limit rejection aborts the chunk loop — the handler's
result is the fold over only the sub-batches up to and including the first
rate-limited one.  A text of a processed sub-batch is surfaced in the
returned map with its own outcome (translation, or a per-text error-sentinel
entry for a rejection) when its sub-batch completed without a rate-limit
rejection, or when its own promise settled before the eager rejection of
`Promise.all` propagated (the text whose throw aborted the sub-batch always
has, its map write preceding the throw); a sibling of the aborting sub-batch
still in flight, and every text of the sub-batches cut off by the abort, is
ABSENT from the map — not surfaced as an error entry. -/
theorem c6_rate_limit_abort_amended (settings : BgSettings)
    (translate : String → TransOutcome) (settled : String → Bool)
    (texts : List String) (t k : String)
    (hkey : currentApiKey settings = some k) (hk : ¬ k = "")
    (hbs : 1 ≤ settings.batchSize) (hnd : texts.Nodup) (_ht : t ∈ texts) :
    handleTranslationBatch settings translate settled texts =
      Except.ok ((processedChunks translate (chunkTexts settings.batchSize texts)).foldl
        (fun m c => (processChunk translate settled m c).1) []) ∧
    (∀ c ∈ processedChunks translate (chunkTexts settings.batchSize texts), t ∈ c →
      mapGet (runChunks translate settled [] (chunkTexts settings.batchSize texts)) t =
        (if !(chunkHit translate c) || settled t then outcomeEntry (translate t) else none)) ∧
    (t ∉ processedTexts translate settings.batchSize texts →
      mapGet (runChunks translate settled [] (chunkTexts settings.batchSize texts)) t
        = none) := by
  have hjoin : (chunkTexts settings.batchSize texts).flatten = texts :=
    chunkTexts_join settings.batchSize texts hbs
  have hjnd : ((chunkTexts settings.batchSize texts).flatten).Nodup := by
    rw [hjoin]
    exact hnd
  have hpnd :
      ((processedChunks translate (chunkTexts settings.batchSize texts)).flatten).Nodup := by
    obtain ⟨rest, hrest⟩ := processedChunks_front translate (chunkTexts settings.batchSize texts)
    rw [hrest, List.flatten_append] at hjnd
    exact (List.nodup_append.mp hjnd).1
  refine ⟨?_, ?_, ?_⟩
  · unfold handleTranslationBatch
    rw [hkey]
    simp only [hk, if_false]
    rw [runChunks_eq_processedChunks]
  · intro c hc htc
    rw [runChunks_eq_processedChunks]
    exact (procFold_get translate settled t _ [] hpnd rfl).2 c hc htc
  · intro hmem
    rw [runChunks_eq_processedChunks]
    exact (procFold_get translate settled t _ [] hpnd rfl).1 hmem

def c6Settings : BgSettings := ⟨"gemini", "", "KEY", "", 1⟩

def c6Translate : String → TransOutcome :=
  fun t => if t = "a" then TransOutcome.fail "Gemini API Error: 429" else TransOutcome.str "B"

/-- With one text per sub-batch the aborting sub-batch has no siblings: the
throwing text itself settled (its sentinel write precedes the throw). -/
def c6Settled : String → Bool := fun _ => true

/-- C6 counterexample: with sub-batch size 1, text "a" rejecting with a 429
message and text "b" in the next sub-batch, which the abort cuts off: "b"
did not complete, yet it is NOT surfaced as a per-text error-sentinel
entry — it is simply absent from the returned map. -/
theorem c6_rate_limit_absent_cex :
    handleTranslationBatch c6Settings c6Translate c6Settled ["a", "b"]
      = Except.ok [("a", "[翻译失败: Gemini API Error: 429]")] ∧
    mapGet (onMessageTranslateBatch c6Settings c6Translate c6Settled ["a", "b"]) "b"
      = none := by
  refine ⟨?_, by decide⟩
  show Except.ok (runChunks c6Translate c6Settled []
    (chunkTexts c6Settings.batchSize ["a", "b"])) = _
  exact congrArg Except.ok (by decide)

def c6wSettings : BgSettings := ⟨"gemini", "", "KEY", "", 2⟩

def c6wTexts : List String := ["a", "b", "c", "d"]

/-- In the witness run only the text whose throw aborted the first
sub-batch had settled before the eager rejection; its sibling "b" was still
in flight. -/
def c6wSettled : String → Bool := fun t => t = "a"

theorem c6_rate_limit_abort_amended_witness :
    (handleTranslationBatch c6wSettings c6Translate c6wSettled c6wTexts =
      Except.ok ((processedChunks c6Translate (chunkTexts c6wSettings.batchSize c6wTexts)).foldl
        (fun m c => (processChunk c6Translate c6wSettled m c).1) [])) ∧
    (mapGet (runChunks c6Translate c6wSettled []
        (chunkTexts c6wSettings.batchSize c6wTexts)) "b" =
      (if !(chunkHit c6Translate ["a", "b"]) || c6wSettled "b"
       then outcomeEntry (c6Translate "b") else none)) ∧
    (mapGet (runChunks c6Translate c6wSettled []
        (chunkTexts c6wSettings.batchSize c6wTexts)) "c" = none) :=
  ⟨(c6_rate_limit_abort_amended c6wSettings c6Translate c6wSettled c6wTexts "b" "KEY"
      rfl (by decide) (by decide) (by decide) (by decide)).1,
   (c6_rate_limit_abort_amended c6wSettings c6Translate c6wSettled c6wTexts "b" "KEY"
      rfl (by decide) (by decide) (by decide) (by decide)).2.1 ["a", "b"]
      (by decide) (by decide),
   (c6_rate_limit_abort_amended c6wSettings c6Translate c6wSettled c6wTexts "c" "KEY"
      rfl (by decide) (by decide) (by decide) (by decide)).2.2 (by decide)⟩

/-! ## Batch-accumulator lemmas -/

theorem cutBatchesAux_spec (bs : Nat) (hbs : 0 < bs) :
    ∀ (fuel : Nat) (q : List Element), q.length ≤ fuel →
      (cutBatchesAux fuel bs q).1.flatten ++ (cutBatchesAux fuel bs q).2 = q ∧
      (∀ b ∈ (cutBatchesAux fuel bs q).1, b.length = bs) ∧
      (cutBatchesAux fuel bs q).2.length < bs := by
  intro fuel
  induction fuel with
  | zero =>
      intro q h
      have hq : q = [] := List.eq_nil_of_length_eq_zero (Nat.le_zero.mp h)
      subst hq
      simpa [cutBatchesAux] using hbs
  | succ f ih =>
      intro q h
      by_cases hc : bs ≤ q.length
      · have hcond : 0 < bs ∧ bs ≤ q.length := ⟨hbs, hc⟩
        simp only [cutBatchesAux]
        rw [if_pos hcond]
        have hdrop : (q.drop bs).length ≤ f := by
          simp only [List.length_drop]
          omega
        obtain ⟨h1, h2, h3⟩ := ih (q.drop bs) hdrop
        refine ⟨?_, ?_, h3⟩
        · rw [List.flatten_cons, List.append_assoc, h1, List.take_append_drop]
        · intro b hb
          rcases List.mem_cons.mp hb with hb | hb
          · subst hb
            simp [List.length_take, Nat.min_eq_left hc]
          · exact h2 b hb
      · have hcond : ¬(0 < bs ∧ bs ≤ q.length) := fun hh => hc hh.2
        simp only [cutBatchesAux]
        rw [if_neg hcond]
        refine ⟨rfl, by simp, ?_⟩
        show q.length < bs
        omega

theorem cutBatches_spec (bs : Nat) (q : List Element) (hbs : 0 < bs) :
    (cutBatches bs q).1.flatten ++ (cutBatches bs q).2 = q ∧
    (∀ b ∈ (cutBatches bs q).1, b.length = bs) ∧
    (cutBatches bs q).2.length < bs :=
  cutBatchesAux_spec bs hbs q.length q le_rfl

theorem createPlaceholdersTM_cons (s : TM) (e : Element) (rest : List Element) :
    createPlaceholdersTM s (e :: rest) = createPlaceholdersTM (placeholderStep s e) rest :=
  rfl

theorem createPlaceholdersTM_shape (batch : List Element) :
    ∀ s : TM, ∃ ks ts, createPlaceholdersTM s batch =
      { s with placeholderKeys := ks, translatedIds := ts } := by
  induction batch with
  | nil => intro s; exact ⟨s.placeholderKeys, s.translatedIds, rfl⟩
  | cons e rest ih =>
      intro s
      rw [createPlaceholdersTM_cons]
      by_cases hc : s.placeholderKeys.contains e.innerText = true
      · have he : placeholderStep s e = s := by
          unfold placeholderStep
          rw [if_pos hc]
        rw [he]
        exact ih s
      · have he : placeholderStep s e =
            { s with placeholderKeys := s.placeholderKeys ++ [e.innerText]
                     translatedIds := s.translatedIds ++ [e.id] } := by
          unfold placeholderStep
          rw [if_neg hc]
        rw [he]
        obtain ⟨ks, ts, hh⟩ := ih _
        rw [hh]
        exact ⟨ks, ts, rfl⟩

theorem dispatchBatch_guard (s : TM) (batch : List Element)
    (h : batch.length = 0 ∨ s.isTranslationActive = false) :
    dispatchBatch s batch = s := by
  unfold dispatchBatch
  rw [if_pos h]

theorem dispatchBatch_shape (s : TM) (batch : List Element)
    (h1 : batch ≠ []) (h2 : s.isTranslationActive = true) :
    ∃ ks ts, dispatchBatch s batch =
      { s with placeholderKeys := ks, translatedIds := ts
               dispatched := s.dispatched ++ [(batch, s.contentBatchSize)] } := by
  unfold dispatchBatch
  have hg : ¬(batch.length = 0 ∨ s.isTranslationActive = false) := by
    push_neg
    exact ⟨fun hl => h1 (List.eq_nil_of_length_eq_zero hl), by simp [h2]⟩
  simp only [hg, if_false]
  obtain ⟨ks, ts, hh⟩ := createPlaceholdersTM_shape batch s
  rw [hh]
  exact ⟨ks, ts, rfl⟩

theorem dispatchFold_shape (bats : List (List Element)) :
    ∀ s : TM, s.isTranslationActive = true → (∀ b ∈ bats, b ≠ []) →
      ∃ ks ts, bats.foldl dispatchBatch s =
        { s with placeholderKeys := ks, translatedIds := ts
                 dispatched := s.dispatched ++
                   bats.map (fun b => (b, s.contentBatchSize)) } := by
  induction bats with
  | nil =>
      intro s _ _
      exact ⟨s.placeholderKeys, s.translatedIds, by simp⟩
  | cons b rest ih =>
      intro s ha hne
      rw [List.foldl_cons]
      obtain ⟨k1, t1, h1⟩ := dispatchBatch_shape s b (hne b (by simp)) ha
      have ha1 : (dispatchBatch s b).isTranslationActive = true := by rw [h1]; exact ha
      obtain ⟨ks, ts, h2⟩ := ih (dispatchBatch s b) ha1 (fun x hx => hne x (by simp [hx]))
      rw [h2, h1]
      exact ⟨ks, ts, by simp⟩

theorem cutBatchesAux_flatten :
    ∀ (fuel bs : Nat) (q : List Element),
      (cutBatchesAux fuel bs q).1.flatten ++ (cutBatchesAux fuel bs q).2 = q := by
  intro fuel
  induction fuel with
  | zero => intro bs q; simp [cutBatchesAux]
  | succ f ih =>
      intro bs q
      by_cases hc : 0 < bs ∧ bs ≤ q.length
      · simp only [cutBatchesAux]
        rw [if_pos hc, List.flatten_cons, List.append_assoc, ih, List.take_append_drop]
      · simp only [cutBatchesAux]
        rw [if_neg hc]
        simp

theorem cutBatchesAux_batches :
    ∀ (fuel bs : Nat) (q : List Element) (b : List Element),
      b ∈ (cutBatchesAux fuel bs q).1 → b.length = bs ∧ 0 < bs := by
  intro fuel
  induction fuel with
  | zero => intro bs q b hb; simp [cutBatchesAux] at hb
  | succ f ih =>
      intro bs q b hb
      by_cases hc : 0 < bs ∧ bs ≤ q.length
      · simp only [cutBatchesAux] at hb
        rw [if_pos hc] at hb
        rcases List.mem_cons.mp hb with hb | hb
        · subst hb
          exact ⟨by simp [List.length_take, Nat.min_eq_left hc.2], hc.1⟩
        · exact ih bs (q.drop bs) b hb
      · simp only [cutBatchesAux] at hb
        rw [if_neg hc] at hb
        simp at hb

theorem cutBatches_flatten (bs : Nat) (q : List Element) :
    (cutBatches bs q).1.flatten ++ (cutBatches bs q).2 = q :=
  cutBatchesAux_flatten q.length bs q

theorem cutBatches_batches (bs : Nat) (q b : List Element)
    (hb : b ∈ (cutBatches bs q).1) : b.length = bs ∧ 0 < bs :=
  cutBatchesAux_batches q.length bs q b hb

theorem mem_cutBatches_rem (bs : Nat) (q : List Element) (e : Element)
    (he : e ∈ (cutBatches bs q).2) : e ∈ q := by
  rw [← cutBatches_flatten bs q]
  exact List.mem_append.mpr (Or.inr he)

theorem mem_cutBatches_batch (bs : Nat) (q b : List Element) (e : Element)
    (hb : b ∈ (cutBatches bs q).1) (he : e ∈ b) : e ∈ q := by
  rw [← cutBatches_flatten bs q]
  exact List.mem_append.mpr (Or.inl (List.mem_flatten.mpr ⟨b, hb, he⟩))

theorem trigger_shape (s : TM) (ha : s.isTranslationActive = true) :
    ∃ ks ts, trigger s =
      { s with
        accumulationQueue := (cutBatches s.contentBatchSize s.accumulationQueue).2
        placeholderKeys := ks, translatedIds := ts
        queueTimeout :=
          (if 0 < (cutBatches s.contentBatchSize s.accumulationQueue).2.length then true
           else s.queueTimeout)
        dispatched := s.dispatched ++
          (cutBatches s.contentBatchSize s.accumulationQueue).1.map
            (fun b => (b, s.contentBatchSize)) } := by
  have hne : ∀ b ∈ (cutBatches s.contentBatchSize s.accumulationQueue).1, b ≠ [] := by
    intro b hb he
    obtain ⟨hlen, hpos⟩ := cutBatches_batches _ _ b hb
    rw [he] at hlen
    simp at hlen
    omega
  obtain ⟨ks, ts, hh⟩ :=
    dispatchFold_shape (cutBatches s.contentBatchSize s.accumulationQueue).1
      { s with accumulationQueue := (cutBatches s.contentBatchSize s.accumulationQueue).2 }
      ha hne
  refine ⟨ks, ts, ?_⟩
  unfold trigger
  simp only [hh]
  by_cases hr : 0 < (cutBatches s.contentBatchSize s.accumulationQueue).2.length
  · rw [if_pos hr, if_pos hr]
  · rw [if_neg hr, if_neg hr]

theorem mem_setAdd (q : List Element) (x e : Element) (h : e ∈ setAdd q x) :
    e ∈ q ∨ e = x := by
  unfold setAdd at h
  split at h
  · exact Or.inl h
  · rcases List.mem_append.mp h with h | h
    · exact Or.inl h
    · exact Or.inr (List.mem_singleton.mp h)

theorem setAdd_of_not_mem (q : List Element) (x : Element) (h : x ∉ q) :
    setAdd q x = q ++ [x] := by
  unfold setAdd
  rw [if_neg h]

/-- One `observeEntry` step either returns the accumulator unchanged or adds
one fresh element and raises the flag. -/
theorem observeEntry_cases (acc : TM × Bool) (en : Element × Bool) :
    observeEntry acc en = acc ∨
    (en.2 = true ∧ en.1.id ∉ acc.1.translatedIds ∧ en.1.id ∉ acc.1.requestedIds ∧
      en.1.innerText ≠ "" ∧ 3 < (strTrim en.1.innerText).length ∧
      observeEntry acc en =
        ({ acc.1 with accumulationQueue := setAdd acc.1.accumulationQueue en.1
                      requestedIds := acc.1.requestedIds ++ [en.1.id] }, true)) := by
  unfold observeEntry
  by_cases h2 : en.2 = true
  · rw [if_pos h2]
    by_cases hq : en.1.id ∉ acc.1.translatedIds ∧ en.1.id ∉ acc.1.requestedIds ∧
        en.1.innerText ≠ "" ∧ 3 < (strTrim en.1.innerText).length
    · rw [if_pos hq]
      exact Or.inr ⟨h2, hq.1, hq.2.1, hq.2.2.1, hq.2.2.2, rfl⟩
    · rw [if_neg hq]
      exact Or.inl rfl
  · rw [if_neg h2]
    exact Or.inl rfl

theorem observeFold_shape (entries : List (Element × Bool)) :
    ∀ acc : TM × Bool, ∃ q ext flag,
      entries.foldl observeEntry acc =
        ({ acc.1 with accumulationQueue := q
                      requestedIds := acc.1.requestedIds ++ ext }, flag) := by
  induction entries with
  | nil =>
      intro acc
      obtain ⟨s, b⟩ := acc
      exact ⟨s.accumulationQueue, [], b, by simp⟩
  | cons en rest ih =>
      intro acc
      rw [List.foldl_cons]
      rcases observeEntry_cases acc en with h | ⟨_, _, _, _, _, h⟩
      · rw [h]
        exact ih acc
      · rw [h]
        obtain ⟨q, ext, flag, hh⟩ := ih
          ({ acc.1 with accumulationQueue := setAdd acc.1.accumulationQueue en.1
                        requestedIds := acc.1.requestedIds ++ [en.1.id] }, true)
        rw [hh]
        exact ⟨q, [en.1.id] ++ ext, flag, by simp⟩

theorem observeFold_queue_new (entries : List (Element × Bool)) :
    ∀ acc : TM × Bool, ∀ e ∈ (entries.foldl observeEntry acc).1.accumulationQueue,
      e ∈ acc.1.accumulationQueue ∨ e.id ∉ acc.1.requestedIds := by
  induction entries with
  | nil => intro acc e he; exact Or.inl he
  | cons en rest ih =>
      intro acc e he
      rw [List.foldl_cons] at he
      rcases observeEntry_cases acc en with h | ⟨_, _, hfresh, _, _, h⟩
      · rw [h] at he
        exact ih acc e he
      · rw [h] at he
        rcases ih _ e he with hq | hreq
        · simp only at hq
          rcases mem_setAdd _ _ _ hq with hq | hq
          · exact Or.inl hq
          · subst hq
            exact Or.inr hfresh
        · simp only at hreq
          right
          intro hmem
          exact hreq (List.mem_append.mpr (Or.inl hmem))

theorem observeFold_link (entries : List (Element × Bool)) :
    ∀ acc : TM × Bool,
      (∀ e ∈ acc.1.accumulationQueue, e.id ∈ acc.1.requestedIds) →
      ∀ e ∈ (entries.foldl observeEntry acc).1.accumulationQueue,
        e.id ∈ (entries.foldl observeEntry acc).1.requestedIds := by
  induction entries with
  | nil => intro acc h e he; exact h e he
  | cons en rest ih =>
      intro acc hlink
      rw [List.foldl_cons]
      rcases observeEntry_cases acc en with h | ⟨_, _, _, _, _, h⟩
      · rw [h]
        exact ih acc hlink
      · rw [h]
        refine ih _ ?_
        intro e he
        simp only at he ⊢
        rcases mem_setAdd _ _ _ he with hq | hq
        · exact List.mem_append.mpr (Or.inl (hlink e hq))
        · subst hq
          exact List.mem_append.mpr (Or.inr (List.mem_singleton.mpr rfl))

theorem observeFold_flag_mono (entries : List (Element × Bool)) :
    ∀ acc : TM × Bool, acc.2 = true →
      (entries.foldl observeEntry acc).2 = true := by
  induction entries with
  | nil => intro acc h; exact h
  | cons en rest ih =>
      intro acc h
      rw [List.foldl_cons]
      rcases observeEntry_cases acc en with he | ⟨_, _, _, _, _, he⟩
      · rw [he]; exact ih acc h
      · rw [he]; exact ih _ rfl

theorem observeFold_flag_false (entries : List (Element × Bool)) :
    ∀ acc : TM × Bool, (entries.foldl observeEntry acc).2 = false →
      entries.foldl observeEntry acc = acc := by
  induction entries with
  | nil => intro acc _; rfl
  | cons en rest ih =>
      intro acc hflag
      rw [List.foldl_cons] at hflag ⊢
      rcases observeEntry_cases acc en with he | ⟨_, _, _, _, _, he⟩
      · rw [he] at hflag ⊢
        exact ih acc hflag
      · rw [he] at hflag
        have hmono := observeFold_flag_mono rest
          ({ acc.1 with accumulationQueue := setAdd acc.1.accumulationQueue en.1
                        requestedIds := acc.1.requestedIds ++ [en.1.id] }, true) rfl
        rw [hflag] at hmono
        cases hmono

/-- The exact effect of a visibility callback whose entries are pairwise
distinct fresh qualifying elements: they are appended to the queue in order,
all marked requested, and the new-items flag is raised. -/
theorem observeFold_exact (es : List Element) :
    ∀ (s : TM) (b : Bool),
      (∀ e ∈ es, e.id ∉ s.translatedIds ∧ e.id ∉ s.requestedIds ∧
        e.innerText ≠ "" ∧ 3 < (strTrim e.innerText).length) →
      (es.map Element.id).Nodup →
      (∀ e ∈ es, e ∉ s.accumulationQueue) →
      (es.map (fun e => (e, true))).foldl observeEntry (s, b) =
        ({ s with accumulationQueue := s.accumulationQueue ++ es
                  requestedIds := s.requestedIds ++ es.map Element.id },
         b || !es.isEmpty) := by
  induction es with
  | nil =>
      intro s b _ _ _
      simp
  | cons e rest ih =>
      intro s b hq hnd hfq
      rw [List.map_cons] at hnd
      have hndc := List.nodup_cons.mp hnd
      have hqe := hq e (by simp)
      have hstep : observeEntry (s, b) (e, true) =
          ({ s with accumulationQueue := setAdd s.accumulationQueue e
                    requestedIds := s.requestedIds ++ [e.id] }, true) := by
        unfold observeEntry
        rw [if_pos rfl, if_pos ⟨hqe.1, hqe.2.1, hqe.2.2.1, hqe.2.2.2⟩]
      have hids : ∀ x ∈ rest, x.id ≠ e.id := by
        intro x hx hxe
        exact hndc.1 (hxe ▸ List.mem_map_of_mem Element.id hx)
      rw [List.map_cons, List.foldl_cons, hstep]
      rw [ih _ true ?_ ?_ ?_]
      · rw [setAdd_of_not_mem s.accumulationQueue e (hfq e (by simp))]
        simp [List.append_assoc]
      · intro x hx
        obtain ⟨h1, h2, h3, h4⟩ := hq x (by simp [hx])
        refine ⟨h1, ?_, h3, h4⟩
        simp only
        intro hmem
        rcases List.mem_append.mp hmem with hmem | hmem
        · exact h2 hmem
        · exact hids x hx (List.mem_singleton.mp hmem)
      · exact hndc.2
      · intro x hx
        simp only
        rw [setAdd_of_not_mem s.accumulationQueue e (hfq e (by simp))]
        intro hmem
        rcases List.mem_append.mp hmem with hmem | hmem
        · exact hfq x (by simp [hx]) hmem
        · have hxe := List.mem_singleton.mp hmem
          exact hids x hx (by rw [hxe])

/-! ## The session invariant -/

theorem loadedBatchSize_pos (b : Nat) : 0 < loadedBatchSize b := by
  unfold loadedBatchSize
  split <;> omega

/-- Invariant of every reachable manager state: the batch size is positive
(`loadSettings` guarantee), fewer than a full batch is ever left pending, an
idle session has no pending work and no timer, exactly one observer is
connected iff the session is active, every queued element carries the
requested marker, and every batch ever dispatched was non-empty and at most
the batch size of its session. -/
def Inv (s : TM) : Prop :=
  1 ≤ s.contentBatchSize ∧
  s.accumulationQueue.length < s.contentBatchSize ∧
  (s.isTranslationActive = false → s.accumulationQueue = [] ∧ s.queueTimeout = false) ∧
  s.observerStored = s.isTranslationActive ∧
  s.connectedObservers = (if s.isTranslationActive = true then 1 else 0) ∧
  (∀ e ∈ s.accumulationQueue, e.id ∈ s.requestedIds) ∧
  (∀ p ∈ s.dispatched, 1 ≤ p.1.length ∧ p.1.length ≤ p.2)

theorem inv_init : Inv initTM := by
  refine ⟨by decide, by decide, fun _ => ⟨rfl, rfl⟩, rfl, rfl, ?_, ?_⟩ <;> simp [initTM]

theorem inv_start (s : TM) (b : Nat) (h : Inv s) : Inv (startStep s b) := by
  obtain ⟨h1, h2, h3, h4, h5, h6, h7⟩ := h
  cases hact : s.isTranslationActive
  · have hq := (h3 hact).1
    have heq : startStep s b =
        { s with isTranslationActive := true
                 contentBatchSize := loadedBatchSize b
                 observerStored := true
                 connectedObservers := s.connectedObservers + 1
                 stylesInjected := true } := by
      unfold startStep
      rw [hact, if_neg (by decide)]
    rw [heq]
    refine ⟨?_, ?_, ?_, ?_, ?_, ?_, ?_⟩
    · exact loadedBatchSize_pos b
    · show s.accumulationQueue.length < loadedBatchSize b
      rw [hq]
      simpa using loadedBatchSize_pos b
    · intro hc
      cases hc
    · rfl
    · show s.connectedObservers + 1 = if true = true then 1 else 0
      rw [h5, hact]
      simp
    · intro e he
      rw [show ({ s with isTranslationActive := true
                         contentBatchSize := loadedBatchSize b
                         observerStored := true
                         connectedObservers := s.connectedObservers + 1
                         stylesInjected := true } : TM).accumulationQueue
            = s.accumulationQueue from rfl, hq] at he
      cases he
    · exact h7
  · have heq : startStep s b = s := by
      unfold startStep
      rw [hact, if_pos rfl]
    rw [heq]
    exact ⟨h1, h2, h3, h4, h5, h6, h7⟩

theorem stopStep_idle (s : TM) (hact : s.isTranslationActive = false) :
    stopStep s = s := by
  unfold stopStep
  rw [hact, if_pos rfl]

theorem stopStep_active (s : TM) (hact : s.isTranslationActive = true) :
    stopStep s =
      { s with isTranslationActive := false
               connectedObservers :=
                 if s.observerStored then s.connectedObservers - 1 else s.connectedObservers
               observerStored := false
               queueTimeout := false
               accumulationQueue := [] } := by
  unfold stopStep
  rw [hact, if_neg (by decide)]

theorem inv_stop (s : TM) (h : Inv s) : Inv (stopStep s) := by
  obtain ⟨h1, h2, h3, h4, h5, h6, h7⟩ := h
  cases hact : s.isTranslationActive
  · rw [stopStep_idle s hact]
    exact ⟨h1, h2, h3, h4, h5, h6, h7⟩
  · rw [stopStep_active s hact]
    refine ⟨?_, ?_, ?_, ?_, ?_, ?_, ?_⟩
    · exact h1
    · show ([] : List Element).length < s.contentBatchSize
      simpa using h1
    · intro _
      exact ⟨rfl, rfl⟩
    · rfl
    · show (if s.observerStored = true then s.connectedObservers - 1 else s.connectedObservers)
        = if false = true then 1 else 0
      rw [h4, hact, h5, hact]
      simp
    · intro e he
      cases he
    · exact h7

theorem inv_dispatchBatch (s : TM) (batch : List Element) (h : Inv s)
    (hbatch : batch.length ≤ s.contentBatchSize) : Inv (dispatchBatch s batch) := by
  obtain ⟨h1, h2, h3, h4, h5, h6, h7⟩ := h
  by_cases hg : batch.length = 0 ∨ s.isTranslationActive = false
  · rw [dispatchBatch_guard s batch hg]
    exact ⟨h1, h2, h3, h4, h5, h6, h7⟩
  · push_neg at hg
    obtain ⟨ks, ts, hh⟩ := dispatchBatch_shape s batch
      (fun he => hg.1 (by simp [he])) (by simpa using hg.2)
    rw [hh]
    refine ⟨h1, h2, h3, h4, h5, ?_, ?_⟩
    · intro e he
      simp only at he
      exact h6 e he
    · intro p hp
      simp only at hp
      rcases List.mem_append.mp hp with hp | hp
      · exact h7 p hp
      · have hp' := List.mem_singleton.mp hp
        subst hp'
        exact ⟨Nat.one_le_iff_ne_zero.mpr hg.1, hbatch⟩

theorem inv_timerFire (s : TM) (h : Inv s) : Inv (timerFireStep s) := by
  have h' := h
  obtain ⟨h1, h2, h3, h4, h5, h6, h7⟩ := h
  unfold timerFireStep
  cases htm : s.queueTimeout
  · rw [if_neg (by decide)]
    exact ⟨h1, h2, h3, h4, h5, h6, h7⟩
  · rw [if_pos rfl]
    have hact : s.isTranslationActive = true := by
      cases hact : s.isTranslationActive
      · have := (h3 hact).2
        rw [htm] at this
        cases this
      · rfl
    have hinv' : Inv { s with accumulationQueue := [], queueTimeout := false } :=
      ⟨h1, by simpa using h1, fun _ => ⟨rfl, rfl⟩, h4, h5, by simp, h7⟩
    by_cases hrem : 0 < s.accumulationQueue.length
    · rw [if_pos hrem]
      exact inv_dispatchBatch _ _ hinv' (le_of_lt h2)
    · rw [if_neg hrem]
      exact hinv'

theorem handleIntersection_idle (s : TM) (entries : List (Element × Bool))
    (hact : s.isTranslationActive = false) :
    handleIntersection s entries = s := by
  unfold handleIntersection
  rw [hact, if_pos rfl]

theorem handleIntersection_quiet (s : TM) (entries : List (Element × Bool))
    (hact : s.isTranslationActive = true)
    (hflag : (entries.foldl observeEntry (s, false)).2 = false) :
    handleIntersection s entries = s := by
  unfold handleIntersection
  rw [hact, if_neg (by decide)]
  show (if (entries.foldl observeEntry (s, false)).2 = true then _ else _) = s
  rw [hflag, if_neg (by decide), observeFold_flag_false entries (s, false) hflag]

theorem handleIntersection_added (s : TM) (entries : List (Element × Bool))
    (hact : s.isTranslationActive = true)
    (hflag : (entries.foldl observeEntry (s, false)).2 = true) :
    handleIntersection s entries = trigger (entries.foldl observeEntry (s, false)).1 := by
  unfold handleIntersection
  rw [hact, if_neg (by decide)]
  show (if (entries.foldl observeEntry (s, false)).2 = true then _ else _) = _
  rw [hflag, if_pos rfl]

theorem inv_intersect (s : TM) (entries : List (Element × Bool)) (h : Inv s) :
    Inv (handleIntersection s entries) := by
  obtain ⟨h1, h2, h3, h4, h5, h6, h7⟩ := h
  cases hact : s.isTranslationActive
  · rw [handleIntersection_idle s entries hact]
    exact ⟨h1, h2, h3, h4, h5, h6, h7⟩
  · cases hflag : (entries.foldl observeEntry (s, false)).2
    · rw [handleIntersection_quiet s entries hact hflag]
      exact ⟨h1, h2, h3, h4, h5, h6, h7⟩
    · rw [handleIntersection_added s entries hact hflag]
      obtain ⟨q, ext, flag, hr⟩ := observeFold_shape entries (s, false)
      have hlink' : ∀ e ∈ (entries.foldl observeEntry (s, false)).1.accumulationQueue,
          e.id ∈ (entries.foldl observeEntry (s, false)).1.requestedIds :=
        observeFold_link entries (s, false) h6
      have hract : (entries.foldl observeEntry (s, false)).1.isTranslationActive = true := by
        rw [hr]
        exact hact
      have hrbs : (entries.foldl observeEntry (s, false)).1.contentBatchSize
          = s.contentBatchSize := by
        rw [hr]
      obtain ⟨ks, ts, htr⟩ := trigger_shape (entries.foldl observeEntry (s, false)).1 hract
      rw [htr]
      obtain ⟨hflat, hblen, hrem⟩ :=
        cutBatches_spec (entries.foldl observeEntry (s, false)).1.contentBatchSize
          (entries.foldl observeEntry (s, false)).1.accumulationQueue (by rw [hrbs]; omega)
      refine ⟨?_, ?_, ?_, ?_, ?_, ?_, ?_⟩
      · show 1 ≤ (entries.foldl observeEntry (s, false)).1.contentBatchSize
        rw [hrbs]
        exact h1
      · simpa using hrem
      · intro hc
        dsimp only at hc
        rw [hract] at hc
        cases hc
      · show (entries.foldl observeEntry (s, false)).1.observerStored
            = (entries.foldl observeEntry (s, false)).1.isTranslationActive
        rw [hract, hr]
        show s.observerStored = true
        rw [h4, hact]
      · show (entries.foldl observeEntry (s, false)).1.connectedObservers = _
        rw [hract]
        show (entries.foldl observeEntry (s, false)).1.connectedObservers
            = if true = true then 1 else 0
        rw [hr]
        show s.connectedObservers = if true = true then 1 else 0
        rw [h5, hact]
      · intro e he
        exact hlink' e (mem_cutBatches_rem _ _ e he)
      · intro p hp
        rcases List.mem_append.mp hp with hp | hp
        · have hd : (entries.foldl observeEntry (s, false)).1.dispatched = s.dispatched := by
            rw [hr]
          rw [hd] at hp
          exact h7 p hp
        · obtain ⟨bb, hbb, hpb⟩ := List.mem_map.mp hp
          subst hpb
          obtain ⟨hblen', hbpos⟩ := cutBatches_batches _ _ bb hbb
          constructor
          · show 1 ≤ bb.length
            omega
          · show bb.length ≤ (entries.foldl observeEntry (s, false)).1.contentBatchSize
            omega

theorem inv_step (s : TM) (ev : Ev) (h : Inv s) : Inv (step s ev) := by
  cases ev with
  | startCmd b => exact inv_start s b h
  | stopCmd => exact inv_stop s h
  | intersect entries => exact inv_intersect s entries h
  | timerFire => exact inv_timerFire s h

theorem inv_run (evs : List Ev) : ∀ s : TM, Inv s → Inv (run evs s) := by
  induction evs with
  | nil => intro s h; exact h
  | cons ev evs ih =>
      intro s h
      exact ih (step s ev) (inv_step s ev h)

/-! ## C1 and C2 -/

theorem cutBatchesAux_nil (fuel bs : Nat) (hbs : 0 < bs) :
    cutBatchesAux fuel bs [] = ([], []) := by
  cases fuel
  · rfl
  · simp only [cutBatchesAux]
    rw [if_neg]
    intro hc
    have := hc.2
    simp at this
    omega

theorem cutBatches_exact (q : List Element) (bs : Nat) (hbs : 0 < bs)
    (hlen : q.length = bs) : cutBatches bs q = ([q], []) := by
  unfold cutBatches
  obtain ⟨f, hf⟩ : ∃ f, q.length = f + 1 := ⟨bs - 1, by omega⟩
  rw [hf]
  simp only [cutBatchesAux]
  rw [if_pos ⟨hbs, by omega⟩]
  have htake : q.take bs = q := List.take_of_length_le (by omega)
  have hdrop : q.drop bs = [] := List.drop_eq_nil_of_le (by omega)
  rw [htake, hdrop, cutBatchesAux_nil f bs hbs]

/-- C1: the admission rule of `triggerBatchProcessing` — whenever it runs,
as long as at least `contentBatchSize` elements are pending, exactly
`contentBatchSize` of them are cut off the front of the queue (oldest added
first, the cut batches concatenating back to the original queue in order)
and dispatched immediately as full batches, until fewer than
`contentBatchSize` remain; and in particular a visibility callback
delivering exactly `contentBatchSize` fresh qualifying elements to an empty
queue dispatches exactly one full batch of them in arrival order, leaves
the pending queue empty and starts no flush timer. -/
theorem c1_batch_admission (s : TM) (es : List Element)
    (hact : s.isTranslationActive = true)
    (hq : s.accumulationQueue = [])
    (ht : s.queueTimeout = false)
    (hbs0 : 0 < s.contentBatchSize)
    (hlen : es.length = s.contentBatchSize)
    (hfresh : ∀ e ∈ es, e.id ∉ s.translatedIds ∧ e.id ∉ s.requestedIds ∧
      e.innerText ≠ "" ∧ 3 < (strTrim e.innerText).length)
    (hnd : (es.map Element.id).Nodup) :
    (∀ t : TM, t.isTranslationActive = true → 0 < t.contentBatchSize →
      ((cutBatches t.contentBatchSize t.accumulationQueue).1.flatten ++
          (cutBatches t.contentBatchSize t.accumulationQueue).2 = t.accumulationQueue ∧
        (∀ b ∈ (cutBatches t.contentBatchSize t.accumulationQueue).1,
          b.length = t.contentBatchSize) ∧
        (cutBatches t.contentBatchSize t.accumulationQueue).2.length < t.contentBatchSize ∧
        (trigger t).accumulationQueue = (cutBatches t.contentBatchSize t.accumulationQueue).2 ∧
        (trigger t).dispatched = t.dispatched ++
          (cutBatches t.contentBatchSize t.accumulationQueue).1.map
            (fun b => (b, t.contentBatchSize)))) ∧
    (step s (Ev.intersect (es.map (fun e => (e, true))))).dispatched
        = s.dispatched ++ [(es, s.contentBatchSize)] ∧
    (step s (Ev.intersect (es.map (fun e => (e, true))))).accumulationQueue = [] ∧
    (step s (Ev.intersect (es.map (fun e => (e, true))))).queueTimeout = false := by
  constructor
  · intro t ha hbs
    obtain ⟨hflat, hblen, hrem⟩ := cutBatches_spec t.contentBatchSize t.accumulationQueue hbs
    obtain ⟨ks, ts, htr⟩ := trigger_shape t ha
    refine ⟨hflat, hblen, hrem, ?_, ?_⟩ <;> rw [htr]
  · have hes : es ≠ [] := by
      intro he
      rw [he] at hlen
      simp at hlen
      omega
    have hempty : es.isEmpty = false := by
      cases es
      · exact absurd rfl hes
      · rfl
    have hfq : ∀ e ∈ es, e ∉ s.accumulationQueue := by
      intro e _
      rw [hq]
      exact List.not_mem_nil e
    have hfold := observeFold_exact es s false hfresh hnd hfq
    have hflag : ((es.map (fun e => (e, true))).foldl observeEntry (s, false)).2 = true := by
      rw [hfold, hempty]
      rfl
    have hstep : step s (Ev.intersect (es.map (fun e => (e, true))))
        = trigger ((es.map (fun e => (e, true))).foldl observeEntry (s, false)).1 :=
      handleIntersection_added s _ hact hflag
    have h1eq : ((es.map (fun e => (e, true))).foldl observeEntry (s, false)).1
        = { s with accumulationQueue := s.accumulationQueue ++ es
                   requestedIds := s.requestedIds ++ es.map Element.id } := by
      rw [hfold]
    obtain ⟨ks, ts, htr⟩ := trigger_shape
      ({ s with accumulationQueue := s.accumulationQueue ++ es
                requestedIds := s.requestedIds ++ es.map Element.id } : TM)
      (by show s.isTranslationActive = true; exact hact)
    have hcut : cutBatches
        ({ s with accumulationQueue := s.accumulationQueue ++ es
                  requestedIds := s.requestedIds ++ es.map Element.id } : TM).contentBatchSize
        ({ s with accumulationQueue := s.accumulationQueue ++ es
                  requestedIds := s.requestedIds ++ es.map Element.id } : TM).accumulationQueue
        = ([es], []) := by
      show cutBatches s.contentBatchSize (s.accumulationQueue ++ es) = ([es], [])
      rw [hq, List.nil_append]
      exact cutBatches_exact es s.contentBatchSize hbs0 hlen
    rw [hstep, h1eq, htr, hcut]
    refine ⟨?_, rfl, ?_⟩
    · show s.dispatched ++ [es].map (fun b => (b, s.contentBatchSize))
          = s.dispatched ++ [(es, s.contentBatchSize)]
      rfl
    · show (if 0 < ([] : List Element).length then true else s.queueTimeout) = false
      rw [if_neg (by simp), ht]

/-- C2: every batch ever handed to the dispatcher during a session is
non-empty and no larger than the session's `contentBatchSize`; in
particular a flush batch may be smaller than a full batch but is still
non-empty and within the bound. -/
theorem c2_batch_size_bounds (evs : List Ev) (p : List Element × Nat)
    (hp : p ∈ (run evs initTM).dispatched) :
    1 ≤ p.1.length ∧ p.1.length ≤ p.2 :=
  (inv_run evs initTM inv_init).2.2.2.2.2.2 p hp

def wElem (i : Nat) (t : String) : Element :=
  ⟨i, t, ⟨"A", "12px", "400", "normal", "black", "1.4", "left", "none", "0"⟩⟩

def c1State : TM :=
  { initTM with isTranslationActive := true, observerStored := true
                connectedObservers := 1, contentBatchSize := 2 }

def c1TrigState : TM :=
  { c1State with
    accumulationQueue :=
      [wElem 1 "aaaaa", wElem 2 "bbbbb", wElem 3 "ccccc", wElem 4 "ddddd", wElem 5 "eeeee"]
    requestedIds := [1, 2, 3, 4, 5] }

def c1Els : List Element := [wElem 6 "ffffff", wElem 7 "ggggg"]

theorem c1_batch_admission_witness :
    (cutBatches c1TrigState.contentBatchSize c1TrigState.accumulationQueue).2.length
        < c1TrigState.contentBatchSize ∧
    (step c1State (Ev.intersect (c1Els.map (fun e => (e, true))))).dispatched
        = c1State.dispatched ++ [(c1Els, c1State.contentBatchSize)] ∧
    (step c1State (Ev.intersect (c1Els.map (fun e => (e, true))))).accumulationQueue = [] ∧
    (step c1State (Ev.intersect (c1Els.map (fun e => (e, true))))).queueTimeout = false :=
  have h := c1_batch_admission c1State c1Els rfl rfl rfl (by decide) (by decide)
    (by decide) (by decide)
  ⟨(h.1 c1TrigState rfl (by decide)).2.2.1, h.2.1, h.2.2.1, h.2.2.2⟩

def c2Evs : List Ev :=
  [Ev.startCmd 2, Ev.intersect [(wElem 1 "hello one", true), (wElem 2 "hello two", true)]]

theorem c2_batch_size_bounds_witness :
    1 ≤ ([wElem 1 "hello one", wElem 2 "hello two"], 2).1.length ∧
    ([wElem 1 "hello one", wElem 2 "hello two"], 2).1.length
        ≤ ([wElem 1 "hello one", wElem 2 "hello two"], 2).2 :=
  c2_batch_size_bounds c2Evs ([wElem 1 "hello one", wElem 2 "hello two"], 2) (by decide)

/-! ## C3: stop discards pending work for good -/

theorem dispatchBatch_fields (s : TM) (batch : List Element) :
    (dispatchBatch s batch).requestedIds = s.requestedIds ∧
    (dispatchBatch s batch).accumulationQueue = s.accumulationQueue := by
  by_cases hg : batch.length = 0 ∨ s.isTranslationActive = false
  · rw [dispatchBatch_guard s batch hg]
    exact ⟨rfl, rfl⟩
  · push_neg at hg
    obtain ⟨ks, ts, hh⟩ := dispatchBatch_shape s batch
      (fun he => hg.1 (by simp [he])) (by simpa using hg.2)
    rw [hh]
    exact ⟨rfl, rfl⟩

theorem dispatchBatch_dispatched_new (s : TM) (batch : List Element) :
    ∃ new, (dispatchBatch s batch).dispatched = s.dispatched ++ new ∧
      ∀ p ∈ new, p.1 = batch := by
  by_cases hg : batch.length = 0 ∨ s.isTranslationActive = false
  · rw [dispatchBatch_guard s batch hg]
    exact ⟨[], by simp, by simp⟩
  · push_neg at hg
    obtain ⟨ks, ts, hh⟩ := dispatchBatch_shape s batch
      (fun he => hg.1 (by simp [he])) (by simpa using hg.2)
    rw [hh]
    refine ⟨[(batch, s.contentBatchSize)], rfl, ?_⟩
    intro p hp
    rw [List.mem_singleton.mp hp]

theorem step_requested_mono (s : TM) (ev : Ev) :
    ∃ ext, (step s ev).requestedIds = s.requestedIds ++ ext := by
  cases ev with
  | startCmd b =>
      show ∃ ext, (startStep s b).requestedIds = _
      unfold startStep
      by_cases hact : s.isTranslationActive = true
      · rw [if_pos hact]
        exact ⟨[], by simp⟩
      · rw [if_neg hact]
        exact ⟨[], by simp⟩
  | stopCmd =>
      show ∃ ext, (stopStep s).requestedIds = _
      cases hact : s.isTranslationActive
      · rw [stopStep_idle s hact]
        exact ⟨[], by simp⟩
      · rw [stopStep_active s hact]
        exact ⟨[], by simp⟩
  | intersect entries =>
      show ∃ ext, (handleIntersection s entries).requestedIds = _
      cases hact : s.isTranslationActive
      · rw [handleIntersection_idle s entries hact]
        exact ⟨[], by simp⟩
      · cases hflag : (entries.foldl observeEntry (s, false)).2
        · rw [handleIntersection_quiet s entries hact hflag]
          exact ⟨[], by simp⟩
        · rw [handleIntersection_added s entries hact hflag]
          obtain ⟨q, ext, flag, hr⟩ := observeFold_shape entries (s, false)
          have hract : (entries.foldl observeEntry (s, false)).1.isTranslationActive = true := by
            rw [hr]
            exact hact
          obtain ⟨ks, ts, htr⟩ := trigger_shape _ hract
          refine ⟨ext, ?_⟩
          rw [htr]
          show (entries.foldl observeEntry (s, false)).1.requestedIds = s.requestedIds ++ ext
          rw [hr]
  | timerFire =>
      show ∃ ext, (timerFireStep s).requestedIds = _
      unfold timerFireStep
      cases htm : s.queueTimeout
      · rw [if_neg (by decide)]
        exact ⟨[], by simp⟩
      · rw [if_pos rfl]
        by_cases hrem : 0 < s.accumulationQueue.length
        · rw [if_pos hrem]
          refine ⟨[], ?_⟩
          rw [(dispatchBatch_fields _ _).1]
          simp
        · rw [if_neg hrem]
          exact ⟨[], by simp⟩

theorem step_queue_new (s : TM) (ev : Ev) :
    ∀ e ∈ (step s ev).accumulationQueue,
      e ∈ s.accumulationQueue ∨ e.id ∉ s.requestedIds := by
  cases ev with
  | startCmd b =>
      intro e he
      left
      replace he : e ∈ (startStep s b).accumulationQueue := he
      unfold startStep at he
      by_cases hact : s.isTranslationActive = true
      · rw [if_pos hact] at he
        exact he
      · rw [if_neg hact] at he
        exact he
  | stopCmd =>
      intro e he
      replace he : e ∈ (stopStep s).accumulationQueue := he
      cases hact : s.isTranslationActive
      · rw [stopStep_idle s hact] at he
        exact Or.inl he
      · rw [stopStep_active s hact] at he
        cases he
  | intersect entries =>
      intro e he
      replace he : e ∈ (handleIntersection s entries).accumulationQueue := he
      cases hact : s.isTranslationActive
      · rw [handleIntersection_idle s entries hact] at he
        exact Or.inl he
      · cases hflag : (entries.foldl observeEntry (s, false)).2
        · rw [handleIntersection_quiet s entries hact hflag] at he
          exact Or.inl he
        · rw [handleIntersection_added s entries hact hflag] at he
          have hract : (entries.foldl observeEntry (s, false)).1.isTranslationActive = true := by
            obtain ⟨q, ext, flag, hr⟩ := observeFold_shape entries (s, false)
            rw [hr]
            exact hact
          obtain ⟨ks, ts, htr⟩ := trigger_shape _ hract
          rw [htr] at he
          have he' : e ∈ (entries.foldl observeEntry (s, false)).1.accumulationQueue :=
            mem_cutBatches_rem _ _ e he
          exact observeFold_queue_new entries (s, false) e he'
  | timerFire =>
      intro e he
      replace he : e ∈ (timerFireStep s).accumulationQueue := he
      unfold timerFireStep at he
      cases htm : s.queueTimeout
      · rw [htm, if_neg (by decide)] at he
        exact Or.inl he
      · rw [htm, if_pos rfl] at he
        by_cases hrem : 0 < s.accumulationQueue.length
        · rw [if_pos hrem, (dispatchBatch_fields _ _).2] at he
          cases he
        · rw [if_neg hrem] at he
          cases he

theorem step_dispatched_new (s : TM) (ev : Ev) :
    ∃ new, (step s ev).dispatched = s.dispatched ++ new ∧
      ∀ p ∈ new, ∀ e ∈ p.1,
        e ∈ s.accumulationQueue ∨ e.id ∉ s.requestedIds := by
  cases ev with
  | startCmd b =>
      show ∃ new, (startStep s b).dispatched = _ ∧ _
      unfold startStep
      by_cases hact : s.isTranslationActive = true
      · rw [if_pos hact]
        exact ⟨[], by simp, by simp⟩
      · rw [if_neg hact]
        exact ⟨[], by simp, by simp⟩
  | stopCmd =>
      show ∃ new, (stopStep s).dispatched = _ ∧ _
      cases hact : s.isTranslationActive
      · rw [stopStep_idle s hact]
        exact ⟨[], by simp, by simp⟩
      · rw [stopStep_active s hact]
        exact ⟨[], by simp, by simp⟩
  | intersect entries =>
      show ∃ new, (handleIntersection s entries).dispatched = _ ∧ _
      cases hact : s.isTranslationActive
      · rw [handleIntersection_idle s entries hact]
        exact ⟨[], by simp, by simp⟩
      · cases hflag : (entries.foldl observeEntry (s, false)).2
        · rw [handleIntersection_quiet s entries hact hflag]
          exact ⟨[], by simp, by simp⟩
        · rw [handleIntersection_added s entries hact hflag]
          obtain ⟨q, ext, flag, hr⟩ := observeFold_shape entries (s, false)
          have hract : (entries.foldl observeEntry (s, false)).1.isTranslationActive = true := by
            rw [hr]
            exact hact
          obtain ⟨ks, ts, htr⟩ := trigger_shape _ hract
          rw [htr]
          refine ⟨(cutBatches (entries.foldl observeEntry (s, false)).1.contentBatchSize
              (entries.foldl observeEntry (s, false)).1.accumulationQueue).1.map
                (fun b => (b, (entries.foldl observeEntry (s, false)).1.contentBatchSize)),
            ?_, ?_⟩
          · show (entries.foldl observeEntry (s, false)).1.dispatched ++ _ = s.dispatched ++ _
            rw [hr]
          · intro p hp e hep
            obtain ⟨bb, hbb, hpb⟩ := List.mem_map.mp hp
            subst hpb
            have he' : e ∈ (entries.foldl observeEntry (s, false)).1.accumulationQueue :=
              mem_cutBatches_batch _ _ bb e hbb hep
            exact observeFold_queue_new entries (s, false) e he'
  | timerFire =>
      show ∃ new, (timerFireStep s).dispatched = _ ∧ _
      unfold timerFireStep
      cases htm : s.queueTimeout
      · rw [if_neg (by decide)]
        exact ⟨[], by simp, by simp⟩
      · rw [if_pos rfl]
        by_cases hrem : 0 < s.accumulationQueue.length
        · rw [if_pos hrem]
          obtain ⟨new, hd, hp⟩ := dispatchBatch_dispatched_new
            { s with accumulationQueue := [], queueTimeout := false } s.accumulationQueue
          refine ⟨new, ?_, ?_⟩
          · rw [hd]
          · intro p hpmem e hep
            left
            rw [hp p hpmem] at hep
            exact hep
        · rw [if_neg hrem]
          exact ⟨[], by simp, by simp⟩

theorem run_dispatched_fresh (R : List Nat) (evs : List Ev) :
    ∀ t : TM, (∀ e ∈ t.accumulationQueue, e.id ∉ R) →
      (∀ i ∈ R, i ∈ t.requestedIds) →
      ∃ new, (run evs t).dispatched = t.dispatched ++ new ∧
        ∀ p ∈ new, ∀ e ∈ p.1, e.id ∉ R := by
  induction evs with
  | nil =>
      intro t _ _
      exact ⟨[], by simp [run], by simp⟩
  | cons ev evs ih =>
      intro t h1 h2
      obtain ⟨new1, hd1, hp1⟩ := step_dispatched_new t ev
      have h1' : ∀ e ∈ (step t ev).accumulationQueue, e.id ∉ R := by
        intro e he
        rcases step_queue_new t ev e he with hq | hreq
        · exact h1 e hq
        · intro hR
          exact hreq (h2 _ hR)
      have h2' : ∀ i ∈ R, i ∈ (step t ev).requestedIds := by
        obtain ⟨ext, hext⟩ := step_requested_mono t ev
        intro i hi
        rw [hext]
        exact List.mem_append.mpr (Or.inl (h2 i hi))
      obtain ⟨new2, hd2, hp2⟩ := ih (step t ev) h1' h2'
      refine ⟨new1 ++ new2, ?_, ?_⟩
      · show (run evs (step t ev)).dispatched = _
        rw [hd2, hd1, List.append_assoc]
      · intro p hp
        rcases List.mem_append.mp hp with hp | hp
        · intro e hep hR
          rcases hp1 p hp e hep with hq | hreq
          · exact (h1 e hq) hR
          · exact hreq (h2 _ hR)
        · exact hp2 p hp

/-- Boolean check that no batch of the given dispatch log contains an
element with one of the given ids. -/
def avoidsIds (ids : List Nat) (log : List (List Element × Nat)) : Bool :=
  log.all fun p => p.1.all fun e => !(ids.contains e.id)

/-- C3: from any session state with a non-empty pending queue, a running
flush timer and every pending element carrying the requested marker (as the
code guarantees), `stop()` cancels the flush timer and empties the pending
queue, and along every continuation of the run — restarts, further
visibility callbacks and timer firings included — no batch dispatched after
the stop contains any of the elements that were pending at the stop. -/
theorem c3_stop_discards_pending (s : TM) (evs : List Ev)
    (hact : s.isTranslationActive = true)
    (_hq : s.accumulationQueue ≠ [])
    (_ht : s.queueTimeout = true)
    (hlink : ∀ e ∈ s.accumulationQueue, e.id ∈ s.requestedIds) :
    (stopStep s).queueTimeout = false ∧
    (stopStep s).accumulationQueue = [] ∧
    avoidsIds (s.accumulationQueue.map Element.id)
      ((run evs (stopStep s)).dispatched.drop s.dispatched.length) = true := by
  have hs := stopStep_active s hact
  refine ⟨by rw [hs], by rw [hs], ?_⟩
  have hfresh : ∀ e ∈ (stopStep s).accumulationQueue,
      e.id ∉ s.accumulationQueue.map Element.id := by
    rw [hs]
    intro e he
    cases he
  have hreq : ∀ i ∈ s.accumulationQueue.map Element.id, i ∈ (stopStep s).requestedIds := by
    rw [hs]
    intro i hi
    obtain ⟨e, he, hei⟩ := List.mem_map.mp hi
    show i ∈ s.requestedIds
    rw [← hei]
    exact hlink e he
  obtain ⟨new, hd, hp⟩ :=
    run_dispatched_fresh (s.accumulationQueue.map Element.id) evs (stopStep s) hfresh hreq
  have hsd : (stopStep s).dispatched = s.dispatched := by rw [hs]
  rw [hd, hsd, List.drop_left]
  rw [avoidsIds, List.all_eq_true]
  intro p hpmem
  rw [List.all_eq_true]
  intro e hemem
  have := hp p hpmem e hemem
  simp only [Bool.not_eq_true', ← Bool.not_eq_true]
  intro hcon
  exact this (by simpa using hcon)

def c3State : TM :=
  { isTranslationActive := true, observerStored := true, connectedObservers := 1
    accumulationQueue :=
      [wElem 1 "pending one", wElem 2 "pending two", wElem 3 "pending three",
       wElem 4 "pending four", wElem 5 "pending five"]
    requestedIds := [1, 2, 3, 4, 5], translatedIds := [], placeholderKeys := []
    queueTimeout := true, contentBatchSize := 30, stylesInjected := true
    dispatched := [] }

def c3Evs : List Ev :=
  [Ev.startCmd 30,
   Ev.intersect [(wElem 1 "pending one", true), (wElem 6 "a fresh element", true)],
   Ev.timerFire]

theorem c3_stop_discards_pending_witness :
    (stopStep c3State).queueTimeout = false ∧
    (stopStep c3State).accumulationQueue = [] ∧
    avoidsIds (c3State.accumulationQueue.map Element.id)
      ((run c3Evs (stopStep c3State)).dispatched.drop c3State.dispatched.length) = true :=
  c3_stop_discards_pending c3State c3Evs rfl (by decide) rfl (by decide)

/-! ## C8: start/stop re-entrancy on the refined session machine

`start()` is `async` and suspends at `await this.loadSettings()`
(content.js line 30) after setting the active flag but before creating the
observer; a `stop_translation` command can be delivered during that
suspension.  The refined machine below keeps the suspension: the
synchronous prefix and the continuation of `start()` are separate steps,
and `pendingResumes` counts invocations suspended at the await. -/

structure TMS where
  isTranslationActive : Bool
  /-- whether `this.observer` is non-null. -/
  observerStored : Bool
  /-- number of `IntersectionObserver`s created and not yet disconnected. -/
  connectedObservers : Nat
  /-- `start()` invocations suspended at `await this.loadSettings()`. -/
  pendingResumes : Nat
  accumulationQueue : List Element
  queueTimeout : Bool
  contentBatchSize : Nat
  stylesInjected : Bool
deriving DecidableEq, Repr

def initTMS : TMS :=
  { isTranslationActive := false, observerStored := false, connectedObservers := 0
    pendingResumes := 0, accumulationQueue := [], queueTimeout := false
    contentBatchSize := 30, stylesInjected := false }

/-- The synchronous prefix of `start()` (content.js lines 23-30): no-op when
already active, otherwise the active flag is set and the invocation
suspends awaiting the settings read. -/
def startBegin (s : TMS) : TMS :=
  if s.isTranslationActive then s
  else { s with isTranslationActive := true, pendingResumes := s.pendingResumes + 1 }

/-- The continuation of `start()` after the await (content.js lines 31-42),
which runs once per suspended invocation and does NOT re-check the active
flag: the batch size read from storage is applied, a fresh observer is
created — overwriting `this.observer`, so a previously stored observer is
left connected — and connected, and the spinner styles are injected. -/
def startResume (s : TMS) (storedBatchSize : Nat) : TMS :=
  if s.pendingResumes = 0 then s
  else
    { s with pendingResumes := s.pendingResumes - 1
             contentBatchSize := loadedBatchSize storedBatchSize
             observerStored := true
             connectedObservers := s.connectedObservers + 1
             stylesInjected := true }

/-- `stop()` (content.js lines 45-60) on the refined machine: it disconnects
the stored observer, if any, but cannot cancel a pending continuation. -/
def stopS (s : TMS) : TMS :=
  if s.isTranslationActive = false then s
  else
    { s with isTranslationActive := false
             connectedObservers :=
               if s.observerStored then s.connectedObservers - 1 else s.connectedObservers
             observerStored := false
             queueTimeout := false
             accumulationQueue := [] }

/-- The start/stop commands as they reach the manager, with `start` split at
its suspension point. -/
inductive SEv where
  | startPre : SEv
  | startCont : Nat → SEv
  | stopCmd : SEv
deriving DecidableEq, Repr

def stepS (s : TMS) : SEv → TMS
  | .startPre => startBegin s
  | .startCont b => startResume s b
  | .stopCmd => stopS s

def runS (evs : List SEv) (s : TMS) : TMS :=
  evs.foldl stepS s

/-- A start() or stop() invocation delivered to completion before the next
command arrives. -/
inductive Invocation where
  | startInv : Nat → Invocation
  | stopInv : Invocation
deriving DecidableEq, Repr

def expandInv : Invocation → List SEv
  | .startInv b => [SEv.startPre, SEv.startCont b]
  | .stopInv => [SEv.stopCmd]

/-- Running a sequence of invocations each to completion (no interleaving). -/
def runInvocations (invs : List Invocation) (s : TMS) : TMS :=
  invs.foldl (fun s i => runS (expandInv i) s) s

/-- A completed, non-interleaved start() equals the atomic `startStep` of the
accumulator machine: the prefix immediately followed by its continuation. -/
theorem completedStart_composite (s : TMS) (b : Nat) (hp : s.pendingResumes = 0) :
    runS (expandInv (Invocation.startInv b)) s =
      (if s.isTranslationActive then s
       else { s with isTranslationActive := true
                     contentBatchSize := loadedBatchSize b
                     observerStored := true
                     connectedObservers := s.connectedObservers + 1
                     stylesInjected := true }) := by
  cases hact : s.isTranslationActive
  · rw [if_neg (by decide)]
    show startResume (startBegin s) b = _
    unfold startBegin
    rw [hact, if_neg (by decide)]
    unfold startResume
    rw [if_neg (by simp)]
    simp only
    rw [hp]
  · rw [if_pos (by decide)]
    show startResume (startBegin s) b = s
    unfold startBegin
    rw [hact, if_pos rfl]
    unfold startResume
    rw [hp, if_pos rfl]

/-- Invariant of states reachable by completed invocations. -/
def InvS (s : TMS) : Prop :=
  s.observerStored = s.isTranslationActive ∧
  s.connectedObservers = (if s.isTranslationActive = true then 1 else 0) ∧
  s.pendingResumes = 0

theorem invS_init : InvS initTMS :=
  ⟨rfl, rfl, rfl⟩

theorem invS_invocation (s : TMS) (i : Invocation) (h : InvS s) :
    InvS (runS (expandInv i) s) := by
  obtain ⟨h1, h2, h3⟩ := h
  cases i with
  | startInv b =>
      rw [completedStart_composite s b h3]
      cases hact : s.isTranslationActive
      · rw [if_neg (by decide)]
        refine ⟨rfl, ?_, h3⟩
        show s.connectedObservers + 1 = if true = true then 1 else 0
        rw [h2, hact]
        simp
      · rw [if_pos (by decide)]
        exact ⟨h1, h2, h3⟩
  | stopInv =>
      show InvS (stopS s)
      unfold stopS
      cases hact : s.isTranslationActive
      · rw [if_pos rfl]
        exact ⟨h1, h2, h3⟩
      · rw [if_neg (by decide)]
        refine ⟨rfl, ?_, h3⟩
        show (if s.observerStored = true then s.connectedObservers - 1 else s.connectedObservers)
            = if false = true then 1 else 0
        rw [h1, hact, h2, hact]
        simp

theorem invS_runInvocations (invs : List Invocation) :
    ∀ s : TMS, InvS s → InvS (runInvocations invs s) := by
  induction invs with
  | nil => intro s h; exact h
  | cons i rest ih =>
      intro s h
      exact ih _ (invS_invocation s i h)

/-- C8 counterexample: on the refined machine that keeps `start()`'s
suspension at `await this.loadSettings()`, a stop delivered during the await
leaves the resumed continuation connecting an observer while the session is
Idle — refuting "an observer is connected if and only if the session is
Active" — and a start-stop-start interleaving leaves two observers
connected, the first one leaked. -/
theorem c8_observer_not_iff_active_cex :
    (runS [SEv.startPre, SEv.stopCmd, SEv.startCont 30] initTMS).isTranslationActive
        = false ∧
    (runS [SEv.startPre, SEv.stopCmd, SEv.startCont 30] initTMS).connectedObservers = 1 ∧
    (runS [SEv.startPre, SEv.stopCmd, SEv.startPre, SEv.startCont 30, SEv.startCont 30]
        initTMS).isTranslationActive = true ∧
    (runS [SEv.startPre, SEv.stopCmd, SEv.startPre, SEv.startCont 30, SEv.startCont 30]
        initTMS).connectedObservers = 2 := by
  decide

/-- C8 amended: `start()` is a no-op when the session is already Active —
so two completed `start()` invocations register exactly one observer — and
after every sequence of start/stop invocations each delivered to completion
before the next, an observer is connected iff the session is Active.  When
a stop is interleaved into `start()`'s await of the settings read this
equivalence fails (see the counterexample): the resumed continuation
connects an observer while Idle. -/
theorem c8_start_idempotent_observer_amended (invs : List Invocation) :
    ((runInvocations invs initTMS).isTranslationActive = true →
      ∀ b, runS (expandInv (Invocation.startInv b)) (runInvocations invs initTMS)
        = runInvocations invs initTMS) ∧
    (runInvocations invs initTMS).observerStored
        = (runInvocations invs initTMS).isTranslationActive ∧
    (runInvocations invs initTMS).connectedObservers
        = (if (runInvocations invs initTMS).isTranslationActive = true then 1 else 0) ∧
    ∀ b b',
      (runInvocations [Invocation.startInv b, Invocation.startInv b'] initTMS).connectedObservers
        = 1 := by
  have hinv := invS_runInvocations invs initTMS invS_init
  refine ⟨?_, hinv.1, hinv.2.1, ?_⟩
  · intro hact b
    rw [completedStart_composite _ b hinv.2.2, if_pos hact]
  · intro b b'
    rfl

theorem c8_start_idempotent_observer_amended_witness :
    (runInvocations [Invocation.startInv 30, Invocation.stopInv, Invocation.startInv 7]
        initTMS).observerStored
      = (runInvocations [Invocation.startInv 30, Invocation.stopInv, Invocation.startInv 7]
        initTMS).isTranslationActive ∧
    runS (expandInv (Invocation.startInv 3)) (runInvocations [Invocation.startInv 30] initTMS)
      = runInvocations [Invocation.startInv 30] initTMS ∧
    (runInvocations [Invocation.startInv 4, Invocation.startInv 5] initTMS).connectedObservers
      = 1 :=
  ⟨(c8_start_idempotent_observer_amended
      [Invocation.startInv 30, Invocation.stopInv, Invocation.startInv 7]).2.1,
   (c8_start_idempotent_observer_amended [Invocation.startInv 30]).1 (by decide) 3,
   (c8_start_idempotent_observer_amended []).2.2.2 4 5⟩

end WebTranslator
